import Mathlib

/-!
# somnisoft/head: a shallow embedding of `src/head.c`

The program functions `head_warn`, `head_fp`, `head_path`,
`head_parse_nlines` and `head_main` are translated from `src/head.c`.
The C library they call (`getline`, `fwrite`, `ferror`, `fopen`, `fclose`,
`putchar`, `printf`, `getopt`, `strtoumax`) is modelled after ISO C / POSIX as
an explicit substrate: a `World` holding the file system, the streams, the
diagnostics written to standard error, the trace of library calls made so far
(each with whether it reported failure) and an environment `env` that decides,
from the trace and the call being made, whether the call fails.
-/

namespace Head

/-! ## Data model -/

/-- A byte (`char`) of a stream or of a C string. A C string is modelled by the
list of its bytes before the terminating NUL. -/
abbrev Byte := UInt8

/-- The line terminator `'\n'`. -/
def NL : Byte := 10

/-- ASCII bytes of a string literal (used to write down inputs). -/
def bytes (s : String) : List Byte := s.toList.map (fun c => UInt8.ofNat c.toNat)

/-- The value of `EXIT_SUCCESS` in `<stdlib.h>`. -/
def EXIT_SUCCESS : Int := 0

/-- The value of `EXIT_FAILURE` in `<stdlib.h>`. -/
def EXIT_FAILURE : Int := 1

/-- Default number of lines to print if the -n argument is unspecified. -/
def HEAD_DEFAULT_LINES : Nat := 10

/-- Largest value of `uintmax_t` (64 bits wide, as the test suite assumes). -/
def UINTMAX_MAX : Nat := 2 ^ 64 - 1

/-- A call into the C library that touches a stream or the file system. -/
inductive Call where
  | getline
  | fwrite (nmemb : Nat)
  | ferror (ofStdout : Bool)
  | fopen (path : List Byte)
  | fclose
  | putchar
  | printf (arg : List Byte)
  deriving DecidableEq

/-- A library call that was made, and whether it reported failure: `getline`
-1 with `errno` set, `fwrite` fewer items than asked, `ferror` nonzero, `fopen`
NULL, `fclose` nonzero, `putchar` not the byte, `printf` negative. -/
structure Event where
  call : Call
  failed : Bool
  deriving DecidableEq

/-- What the environment decides for one library call. `fail`: the call
reports failure (for `ferror`: the indicator was set behind the program's
back). `accepted`: for a failing output call, how many of the bytes still reach
standard output. `indicator`: whether the failing call sets the error
indicator of the stream. -/
structure Outcome where
  fail : Bool
  accepted : Nat
  indicator : Bool

/-- A diagnostic line on standard error. -/
inductive Diag where
  | warn (errno_msg : Bool) (fmt : String) (arg : List Byte)
  | getopt
  deriving DecidableEq

/-- An input stream: the bytes not yet read and the error indicator. -/
structure FILE where
  data : List Byte
  error : Bool

/-- The substrate the program runs on. `files path` is the content of the file
`fopen(path, "r")` opens, or `none` when it cannot be opened. `out` is the
sequence of bytes standard output has accepted, `err` the diagnostics on
standard error, `trace` the library calls made so far (oldest first), and
`env t c` the outcome the environment chooses for the call `c` made after the
calls `t`. -/
structure World where
  files : List Byte → Option (List Byte)
  stdin : FILE
  out : List Byte
  out_error : Bool
  err : List Diag
  trace : List Event
  env : List Event → Call → Outcome

/-- The fields of `struct head` that carry meaning: the exit status and the
line limit. (`line`/`linesize` are the `getline` buffer; the line read is
passed directly from `getline` to `fwrite` here.) -/
structure head where
  status_code : Int
  nlines : Nat
  deriving DecidableEq

/-- The state of a run: the `struct head` context and the substrate. -/
structure State where
  head : head
  sys : World

/-! ## The C library -/

/-- Append a call and whether it failed to the trace. -/
def record (w : World) (c : Call) (failed : Bool) : World :=
  { w with trace := w.trace ++ [{ call := c, failed := failed }] }

/-- Split off the first line: all bytes up to and including the first `'\n'`,
or all bytes when there is none. -/
def readLine : List Byte → List Byte × List Byte
  | [] => ([], [])
  | b :: bs => if b = NL then ([b], bs) else ((b :: (readLine bs).1), (readLine bs).2)

/-- Result of `getline`: a line of `linelen = l.length` bytes, or -1 at
end-of-file (`errno` left 0), or -1 with `errno` set. -/
inductive Getline where
  | line (l : List Byte)
  | eof
  | error

/-- POSIX `getline(&line, &linesize, fp)`. -/
def getline (w : World) (fp : FILE) : World × FILE × Getline :=
  let o := w.env w.trace Call.getline
  if o.fail then
    (record w Call.getline true, { fp with error := fp.error || o.indicator }, Getline.error)
  else
    match fp.data with
    | [] => (record w Call.getline false, fp, Getline.eof)
    | b :: bs =>
      (record w Call.getline false, { fp with data := (readLine (b :: bs)).2 },
        Getline.line (readLine (b :: bs)).1)

/-- ISO C `fwrite(l, 1, nmemb, stdout)` with `nmemb = l.length`: returns the
number `k` of bytes written, which is less than `nmemb` exactly when the call
fails (a call with `nmemb = 0` cannot fail). -/
def fwrite (w : World) (l : List Byte) : World × Nat :=
  let o := w.env w.trace (Call.fwrite l.length)
  let k := if o.fail then min o.accepted (l.length - 1) else l.length
  let w1 := record w (Call.fwrite l.length) (decide (k < l.length))
  ({ w1 with out := w1.out ++ l.take k,
             out_error := w1.out_error || (decide (k < l.length) && o.indicator) }, k)

/-- ISO C `ferror(stream)`; `flag` is the error indicator of the stream asked
about. -/
def ferror (w : World) (ofStdout : Bool) (flag : Bool) : World × Bool :=
  let r := flag || (w.env w.trace (Call.ferror ofStdout)).fail
  (record w (Call.ferror ofStdout) r, r)

/-- ISO C `putchar(c)`: the Boolean tells whether `c` was returned (rather
than `EOF`). -/
def putchar (w : World) (c : Byte) : World × Bool :=
  let o := w.env w.trace Call.putchar
  let w1 := record w Call.putchar o.fail
  if o.fail then ({ w1 with out_error := w1.out_error || o.indicator }, false)
  else ({ w1 with out := w1.out ++ [c] }, true)

/-- The text `printf("==> %s <==\n", name)` produces. -/
def banner (name : List Byte) : List Byte :=
  [61, 61, 62, 32] ++ name ++ [32, 60, 61, 61, 10]

/-- ISO C `printf("==> %s <==\n", arg)`: the Boolean tells whether the return
value was non-negative. -/
def printf (w : World) (arg : List Byte) : World × Bool :=
  let o := w.env w.trace (Call.printf arg)
  let w1 := record w (Call.printf arg) o.fail
  if o.fail then
    ({ w1 with out := w1.out ++ (banner arg).take o.accepted,
               out_error := w1.out_error || o.indicator }, false)
  else ({ w1 with out := w1.out ++ banner arg }, true)

/-- ISO C `fopen(path, "r")`: `none` is the NULL pointer. -/
def fopen (w : World) (path : List Byte) : World × Option FILE :=
  (record w (Call.fopen path) (w.files path).isNone,
    (w.files path).map (fun c => { data := c, error := false }))

/-- ISO C `fclose(fp)`: the Boolean tells whether 0 was returned. -/
def fclose (w : World) : World × Bool :=
  let o := w.env w.trace Call.fclose
  (record w Call.fclose o.fail, !o.fail)

/-! ## The program (`src/head.c`) -/

/-- Print an error message to STDERR and set an error status code. -/
def head_warn (s : State) (errno_msg : Bool) (fmt : String) (arg : List Byte) : State :=
  { head := { s.head with status_code := EXIT_FAILURE },
    sys := { s.sys with err := s.sys.err ++ [Diag.warn errno_msg fmt arg] } }

/-- The `for(i = 0; i < head->nlines; i++)` loop of `head_fp`; the first
argument is the number `nlines - i` of iterations still allowed. -/
def head_fp_loop : Nat → State → FILE → State × FILE
  | 0, s, fp => (s, fp)
  | n + 1, s, fp =>
    let r := getline s.sys fp
    let s1 : State := { s with sys := r.1 }
    match r.2.2 with
    | Getline.error => (head_warn s1 true "getline" [], r.2.1)
    | Getline.eof => (s1, r.2.1)
    | Getline.line l =>
      let q := fwrite s1.sys l
      let s2 : State := { s1 with sys := q.1 }
      if q.2 ≠ l.length then (head_warn s2 true "fwrite: %s" [], r.2.1)
      else head_fp_loop n s2 r.2.1

/-- Print head lines from file pointer. -/
def head_fp (s : State) (fp : FILE) : State :=
  let r := head_fp_loop s.head.nlines s fp
  let e1 := ferror r.1.sys false r.2.error
  let s1 : State := { r.1 with sys := e1.1 }
  if e1.2 then head_warn s1 true "ferror: file error indicator set" []
  else
    let e2 := ferror s1.sys true s1.sys.out_error
    let s2 : State := { s1 with sys := e2.1 }
    if e2.2 then head_warn s2 true "ferror: file error indicator set" []
    else s2

/-- Open a file path and call `head_fp`. -/
def head_path (s : State) (path : List Byte) : State :=
  let r := fopen s.sys path
  let s1 : State := { s with sys := r.1 }
  match r.2 with
  | none => head_warn s1 true "fopen: %s" path
  | some fp =>
    let s2 := head_fp s1 fp
    let c := fclose s2.sys
    let s3 : State := { s2 with sys := c.1 }
    if c.2 then s3 else head_warn s3 true "fclose: %s" path

/-- ISO C `isspace` in the "C" locale (the program never calls `setlocale`). -/
def isspace (c : Byte) : Bool := c.toNat = 32 || (9 ≤ c.toNat && c.toNat ≤ 13)

/-- ISO C `isdigit`. -/
def isdigit (c : Byte) : Bool := 48 ≤ c.toNat && c.toNat ≤ 57

/-- The number a sequence of decimal digits denotes. -/
def digitsValue (ds : List Byte) : Nat :=
  ds.foldl (fun acc d => acc * 10 + (d.toNat - 48)) 0

/-- Result of `strtoumax`: the value returned, the rest of the string at `*ep`
and whether `errno` was set to `ERANGE`. -/
structure Strto where
  value : Nat
  ep : List Byte
  erange : Bool

/-- The optional sign of the subject sequence of `strtoumax`: whether it is a
minus sign, and the text after it. -/
def strto_sign (s : List Byte) : Bool × List Byte :=
  match s with
  | [] => (false, [])
  | c :: r => if c = 45 then (true, r) else if c = 43 then (false, r) else (false, c :: r)

/-- ISO C `strtoumax(s, &ep, 10)` (7.8.2.3, 7.22.1.4): skip white space, take
an optional sign and the longest run of decimal digits. With no digits no
conversion is performed and `ep = s`. A value above `UINTMAX_MAX` gives
`UINTMAX_MAX` and `ERANGE`; after a minus sign the value is negated in
`uintmax_t`. -/
def strtoumax (s : List Byte) : Strto :=
  let t := strto_sign (s.dropWhile isspace)
  let ds := t.2.takeWhile isdigit
  if ds = [] then { value := 0, ep := s, erange := false }
  else if UINTMAX_MAX < digitsValue ds then
    { value := UINTMAX_MAX, ep := t.2.dropWhile isdigit, erange := true }
  else
    { value := if t.1 then (2 ^ 64 - digitsValue ds) % 2 ^ 64 else digitsValue ds,
      ep := t.2.dropWhile isdigit, erange := false }

/-- Parse number of lines to print. Corresponds to the (-n) argument. -/
def head_parse_nlines (s : State) (str : List Byte) : State :=
  let r := strtoumax str
  let s1 : State := { s with head := { s.head with nlines := r.value } }
  if str = [] ∨ r.ep ≠ [] then head_warn s1 false "not a number: %s" str
  else if r.value = UINTMAX_MAX ∧ r.erange = true then head_warn s1 true "out of range: %s" str
  else s1

/-- What a call of `getopt(argc, argv, "n:")` returns other than -1: `'n'`
with its `optarg`, or `'?'` (an unknown option character, or `n` without its
option-argument). -/
inductive Opt where
  | n (optarg : List Byte)
  | unknown
  deriving DecidableEq

/-- POSIX `getopt` on the option characters of one argument (the text after
its `'-'`); `next` is the argument that follows, if any. Gives the values
returned for this argument and whether `next` was taken as option-argument.
A character other than `'n'` is unknown; `'n'` takes the rest of the argument
as `optarg`, or else the next argument, and is `'?'` when there is none. -/
def getopt_arg : List Byte → Option (List Byte) → List Opt × Bool
  | [], _ => ([], false)
  | c :: cs, next =>
    if c = 110 then
      match cs, next with
      | _ :: _, _ => ([Opt.n cs], false)
      | [], some a => ([Opt.n a], true)
      | [], none => ([Opt.unknown], false)
    else (Opt.unknown :: (getopt_arg cs next).1, (getopt_arg cs next).2)

/-- POSIX `getopt(argc, argv, "n:")` called until it returns -1, on the
arguments after `argv[0]`: the values returned, in order, and the operands
`argv + optind` left. As POSIX specifies, `argv` is not permuted: scanning
stops at the first argument that does not start with `'-'` or is `"-"`, and
after `"--"`. -/
def getopt_all : List (List Byte) → List Opt × List (List Byte)
  | [] => ([], [])
  | [a] =>
    if a.head? = some 45 ∧ 2 ≤ a.length then
      if a = [45, 45] then ([], [])
      else ((getopt_arg a.tail none).1, [])
    else ([], [a])
  | a :: b :: rest =>
    if a.head? = some 45 ∧ 2 ≤ a.length then
      if a = [45, 45] then ([], b :: rest)
      else if (getopt_arg a.tail (some b)).2 then
        ((getopt_arg a.tail (some b)).1 ++ (getopt_all rest).1, (getopt_all rest).2)
      else
        ((getopt_arg a.tail (some b)).1 ++ (getopt_all (b :: rest)).1,
          (getopt_all (b :: rest)).2)
    else ([], a :: b :: rest)

/-- The message `getopt` itself prints on standard error when it returns
`'?'` (`opterr` is nonzero and the option string does not start with a
colon). -/
def getopt_report (w : World) : Opt → World
  | Opt.unknown => { w with err := w.err ++ [Diag.getopt] }
  | Opt.n _ => w

/-- One round of the `while((c = getopt(...)) != -1)` loop of `head_main`. -/
def head_main_getopt (s : State) (o : Opt) : State :=
  let s1 : State := { s with sys := getopt_report s.sys o }
  match o with
  | Opt.n optarg => head_parse_nlines s1 optarg
  | Opt.unknown => { s1 with head := { s1.head with status_code := EXIT_FAILURE } }

/-- The `if(argc > 1)` block of the `for` loop of `head_main`: the separator
before every input but the first, then the banner. -/
def head_main_banner (argc i : Nat) (s : State) (name : List Byte) : State :=
  if argc > 1 then
    let sa : State :=
      if i > 0 then
        let r := putchar s.sys NL
        if r.2 then { s with sys := r.1 }
        else head_warn { s with sys := r.1 } true "putchar: <NL>" []
      else s
    let r := printf sa.sys name
    if r.2 then { sa with sys := r.1 }
    else head_warn { sa with sys := r.1 } true "printf: file header" []
  else s

/-- The loop `for(i = 0; i < argc && head.status_code == 0; i++)` of
`head_main`, at index `i` with the inputs `argv[i..]` left. -/
def head_main_loop (argc : Nat) : Nat → List (List Byte) → State → State
  | _, [], s => s
  | i, p :: ps, s =>
    if s.head.status_code = 0 then
      head_main_loop argc (i + 1) ps (head_path (head_main_banner argc i s p) p)
    else s

/-- The state `head_main` reaches after `memset`, the default limit and the
`while((c = getopt(argc, argv, "n:")) != -1)` loop. -/
def head_main_parse (argv : List (List Byte)) (w : World) : State :=
  (getopt_all (argv.drop 1)).1.foldl head_main_getopt
    { head := { status_code := 0, nlines := HEAD_DEFAULT_LINES }, sys := w }

/-- The operands left by `argc -= optind; argv += optind`. -/
def head_main_operands (argv : List (List Byte)) : List (List Byte) :=
  (getopt_all (argv.drop 1)).2

/-- Main entry point for head program; `argv` includes `argv[0]`. The value
returned is `status_code` of the final state. -/
def head_main (argv : List (List Byte)) (w : World) : State :=
  let s1 := head_main_parse argv w
  let operands := head_main_operands argv
  if s1.head.status_code = 0 then
    if operands.length < 1 then head_fp s1 s1.sys.stdin
    else head_main_loop operands.length 0 operands s1
  else s1

/-! ## Specification vocabulary -/

/-- Lines of a byte sequence, in the words of the specification: a line is all
bytes up to and including the next `'\n'`, or the final unterminated run at
end-of-stream. `cur` holds the bytes of the line being collected. -/
def linesAux : List Byte → List Byte → List (List Byte)
  | cur, [] => if cur = [] then [] else [cur]
  | cur, b :: bs => if b = NL then (cur ++ [b]) :: linesAux [] bs else linesAux (cur ++ [b]) bs

/-- The lines of a byte sequence. -/
def lines (c : List Byte) : List (List Byte) := linesAux [] c

/-- The bytes of the first `n` lines of `c`. -/
def firstLines (n : Nat) (c : List Byte) : List Byte := ((lines c).take n).flatten

/-- A library call that did not fail. -/
def passed (c : Call) : Event := { call := c, failed := false }

/-- The bytes of `c` after its first `n` lines. -/
def afterLines (n : Nat) (c : List Byte) : List Byte := ((lines c).drop n).flatten

/-- The library calls `head_fp` makes in its loop when nothing fails, for the
limit `n` on the content `c`: one `getline` and one `fwrite` for each of the
first `n` lines, and one more `getline` that finds end-of-file when there are
fewer than `n` lines. -/
def loopCalls (n : Nat) (c : List Byte) : List Event :=
  ((lines c).take n).flatMap (fun l => [passed Call.getline, passed (Call.fwrite l.length)])
    ++ (if (lines c).length < n then [passed Call.getline] else [])

/-- The separator `head_main` puts before the banner of input number `i`. -/
def separator (i : Nat) : List Byte := if i > 0 then [NL] else []

/-- What a multi-input run writes for input number `i` named `p` when nothing
fails: separator, banner and the first `n` lines of its content. -/
def sectionOut (n : Nat) (files : List Byte → Option (List Byte)) (i : Nat)
    (p : List Byte) : List Byte :=
  separator i ++ banner p ++ firstLines n ((files p).getD [])

/-- The library calls a multi-input run makes for input number `i` named `p`
when nothing fails. -/
def sectionCalls (n : Nat) (files : List Byte → Option (List Byte)) (i : Nat)
    (p : List Byte) : List Event :=
  (if i > 0 then [passed Call.putchar] else [])
    ++ [passed (Call.printf p), passed (Call.fopen p)]
    ++ loopCalls n ((files p).getD [])
    ++ [passed (Call.ferror false), passed (Call.ferror true), passed Call.fclose]

/-- Output of a multi-input run over the inputs `ps`, the first of which has
number `i`, when nothing fails. -/
def multiOut (n : Nat) (files : List Byte → Option (List Byte)) :
    Nat → List (List Byte) → List Byte
  | _, [] => []
  | i, p :: ps => sectionOut n files i p ++ multiOut n files (i + 1) ps

/-- Library calls of a multi-input run over the inputs `ps`, the first of which
has number `i`, when nothing fails. -/
def multiCalls (n : Nat) (files : List Byte → Option (List Byte)) :
    Nat → List (List Byte) → List Event
  | _, [] => []
  | i, p :: ps => sectionCalls n files i p ++ multiCalls n files (i + 1) ps

/-- The library calls of a run over one input when nothing fails: the calls
of `head_fp` on the content `c`. -/
def fpCalls (n : Nat) (c : List Byte) : List Event :=
  loopCalls n c ++ [passed (Call.ferror false), passed (Call.ferror true)]

/-- The library calls of `head_path` on the path `p` with content `c` when
nothing fails. -/
def pathCalls (n : Nat) (p c : List Byte) : List Event :=
  [passed (Call.fopen p)] ++ fpCalls n c ++ [passed Call.fclose]

/-- The calls `head_fp` makes on its streams. -/
def streamCall (c : Call) : Prop :=
  c = Call.getline ∨ (∃ n, c = Call.fwrite n) ∨ (∃ b, c = Call.ferror b)

/-- The calls `head_path` makes for the path `p`. -/
def pathCall (p : List Byte) (c : Call) : Prop :=
  streamCall c ∨ c = Call.fopen p ∨ c = Call.fclose

/-- The calls that write the separator and the banner of the input `p`. -/
def bannerCall (p : List Byte) (c : Call) : Prop :=
  c = Call.putchar ∨ c = Call.printf p

/-- A later state `t` accounts for its status by what happened since `s`: the
trace and standard error only grew, the calls made all satisfy `Q`, and either
no call failed, nothing was reported and the status is the one of `s`, or some
call failed, a diagnostic was written and the status is `EXIT_FAILURE`. -/
def Logged (Q : Call → Prop) (s t : State) : Prop :=
  ∃ evs ds, t.sys.trace = s.sys.trace ++ evs ∧ t.sys.err = s.sys.err ++ ds ∧
    (∀ e ∈ evs, Q e.call) ∧
    ((t.head.status_code = s.head.status_code ∧ (∀ e ∈ evs, e.failed = false) ∧ ds = [])
      ∨ (t.head.status_code = EXIT_FAILURE ∧ (∃ e ∈ evs, e.failed = true) ∧ ds ≠ []))

/-- The paths of the `fopen` calls among some events, in order. -/
def openCalls (evs : List Event) : List (List Byte) :=
  evs.filterMap (fun e => match e.call with
    | Call.fopen p => some p
    | _ => none)

/-- The names of the banners `printf` was called for among some events, in
order. -/
def bannerCalls (evs : List Event) : List (List Byte) :=
  evs.filterMap (fun e => match e.call with
    | Call.printf p => some p
    | _ => none)

/-- The events a run added to the trace of the world `w` it started from. -/
def newEvents (w : World) (s : State) : List Event := s.sys.trace.drop w.trace.length

/-- The state of a run of `head_main` when the inputs `pre` at the front of
the operand list have had their turn. -/
def atTurn (argv : List (List Byte)) (w : World) (pre : List (List Byte)) : State :=
  head_main_loop (head_main_operands argv).length 0 pre (head_main_parse argv w)

/-- The condition under which `head_parse_nlines` reports its argument. -/
def nlinesRejected (str : List Byte) : Prop :=
  str = [] ∨ (strtoumax str).ep ≠ []
    ∨ ((strtoumax str).value = UINTMAX_MAX ∧ (strtoumax str).erange = true)

instance (str : List Byte) : Decidable (nlinesRejected str) :=
  inferInstanceAs (Decidable (str = [] ∨ (strtoumax str).ep ≠ []
    ∨ ((strtoumax str).value = UINTMAX_MAX ∧ (strtoumax str).erange = true)))

/-- A value returned by `getopt` that makes argument parsing fail: `'?'`, or
the option `n` with an argument `head_parse_nlines` reports. -/
def badOpt : Opt → Bool
  | Opt.unknown => true
  | Opt.n optarg => decide (nlinesRejected optarg)

/-- A line count in three parts: white space `ws`, an optional sign `sg`
(`'+'` or `'-'`) and a non-empty run `ds` of decimal digits whose value fits
`uintmax_t`. -/
def IsCount (ws sg ds : List Byte) : Prop :=
  (∀ c ∈ ws, isspace c = true) ∧ (sg = [] ∨ sg = [43] ∨ sg = [45]) ∧ ds ≠ []
    ∧ (∀ c ∈ ds, isdigit c = true) ∧ digitsValue ds ≤ UINTMAX_MAX

/-- The value of a line count with sign `sg` and digits `ds`: after a minus
sign the value is negated modulo `2 ^ 64`. -/
def countValue (sg ds : List Byte) : Nat :=
  if sg = [45] then (2 ^ 64 - digitsValue ds) % 2 ^ 64 else digitsValue ds

/-- What a run with line limit `n` over the operands `ps` writes when nothing
fails: the first lines of standard input when there is no operand, those of
the file when there is one, and the sections with banners when there are
more. -/
def runOut (n : Nat) (w : World) : List (List Byte) → List Byte
  | [] => firstLines n w.stdin.data
  | [p] => firstLines n ((w.files p).getD [])
  | p :: q :: ps => multiOut n w.files 0 (p :: q :: ps)

/-- The library calls of a run with line limit `n` over the operands `ps` when
nothing fails. -/
def runCalls (n : Nat) (w : World) : List (List Byte) → List Event
  | [] => fpCalls n w.stdin.data
  | [p] => pathCalls n p ((w.files p).getD [])
  | p :: q :: ps => multiCalls n w.files 0 (p :: q :: ps)

/-- The number of `getline` calls among some events. -/
def readCalls (evs : List Event) : Nat :=
  (evs.filter (fun e => match e.call with
    | Call.getline => true
    | _ => false)).length

/-- The calls made for lines that were read and written in full: for each
line one `getline` and then one `fwrite` of the length of the line, neither
failing. -/
def lineCalls (ls : List (List Byte)) : List Event :=
  ls.flatMap (fun l => [passed Call.getline, passed (Call.fwrite l.length)])

/-- How the loop of `head_fp` with limit `n` on the content `c` ends after `k`
lines were read and written in full; `tail` are the calls it still makes,
`extra` the bytes it still writes and `failure` whether it reports a failure.
Either the limit is reached and nothing more is done; or one more `getline`
finds end-of-file or fails (`f`) and nothing is written; or one more `getline`
reads the next line `l`, the one `fwrite` of `l` takes only `m` bytes, fewer
than the length of `l`, and fails, and nothing more is done. -/
def LoopEnd (n : Nat) (c : List Byte) (k : Nat) (tail : List Event) (extra : List Byte)
    (failure : Bool) : Prop :=
  (tail = [] ∧ k = n ∧ extra = [] ∧ failure = false)
    ∨ (∃ f, tail = [{ call := Call.getline, failed := f }] ∧ k < n ∧ extra = []
        ∧ failure = f)
    ∨ (∃ l m, (lines c)[k]? = some l ∧ m < l.length
        ∧ tail = [passed Call.getline, { call := Call.fwrite l.length, failed := true }]
        ∧ k < n ∧ extra = l.take m ∧ failure = true)

/-- The state `s` with the line limit set to `n`. -/
def withLimit (s : State) (n : Nat) : State :=
  { s with head := { s.head with nlines := n } }

/-- The bytes `head_fp` emits: what it appends to the standard output of the
state it starts from. -/
def emitted (s : State) (fp : FILE) : List Byte :=
  (head_fp s fp).sys.out.drop s.sys.out.length

/-- Two worlds that differ at most in what is on standard error. -/
def SameSys (w1 w2 : World) : Prop :=
  w1.files = w2.files ∧ w1.stdin = w2.stdin ∧ w1.out = w2.out
    ∧ w1.out_error = w2.out_error ∧ w1.trace = w2.trace ∧ w1.env = w2.env

/-- The environment fails no library call. -/
def Quiet (w : World) : Prop := ∀ t c, (w.env t c).fail = false

/-- No I/O error: the environment fails no call and no error indicator is set
on standard input or standard output. -/
def NoFault (w : World) : Prop :=
  Quiet w ∧ w.stdin.error = false ∧ w.out_error = false

/-! ## Concrete inputs

Stand-ins for the files of the test suite (`test/files/*.txt`): `file5` is the
text `test_all_stdin` sends and compares with `test/files/5.txt`. -/

/-- An environment in which no library call fails. -/
def quietEnv : List Event → Call → Outcome :=
  fun _ _ => { fail := false, accepted := 0, indicator := false }

/-- A file of ten lines. -/
def file10 : List Byte :=
  bytes "1: line 1\n2: line 2\n3: line 3\n4: line 4\n5: line 5\n6: line 6\n7: line 7\n8: line 8\n9: line 9\n10: line 10\n"

/-- A file of five lines. -/
def file5 : List Byte :=
  bytes "1: line 1\n2: line 2\n3: line 3\n4: line 4\n5: line 5\n"

/-- A file of five lines whose last line has no terminator. -/
def file5_no_eol : List Byte :=
  bytes "1: line 1\n2: line 2\n3: line 3\n4: line 4\n5: line 5"

/-- A file of one line. -/
def file1 : List Byte := bytes "1: line 1\n"

/-- A stand-in for the file `README.md` of the repository. -/
def readme : List Byte := bytes "# head\nPrint the first lines of files.\n"

/-- The file system of the examples; every other path cannot be opened. -/
def testFiles (p : List Byte) : Option (List Byte) :=
  if p = bytes "test/files/10.txt" then some file10
  else if p = bytes "test/files/5.txt" then some file5
  else if p = bytes "test/files/5-no-eol.txt" then some file5_no_eol
  else if p = bytes "test/files/1.txt" then some file1
  else if p = bytes "README.md" then some readme
  else none

/-- A world with the example files, the given bytes on standard input, empty
output, and the given environment. -/
def testWorld (input : List Byte) (env : List Event → Call → Outcome) : World :=
  { files := testFiles, stdin := { data := input, error := false }, out := [],
    out_error := false, err := [], trace := [], env := env }

/-- A state at the start of `head_fp` with line limit `n`. -/
def testState (n : Nat) : State :=
  { head := { status_code := 0, nlines := n }, sys := testWorld [] quietEnv }

/-- Whether two calls are calls of the same library function. -/
def sameFunction : Call → Call → Bool
  | Call.getline, Call.getline => true
  | Call.fwrite _, Call.fwrite _ => true
  | Call.ferror _, Call.ferror _ => true
  | Call.fopen _, Call.fopen _ => true
  | Call.fclose, Call.fclose => true
  | Call.putchar, Call.putchar => true
  | Call.printf _, Call.printf _ => true
  | _, _ => false

/-- The environment of the test seams (`test/seams.c`): with the error counter
of the library function of `c` set to `k`, the call number `k` (from 0) of that
function fails; nothing reaches the stream and no indicator is set. -/
def seamEnv (c : Call) (k : Nat) : List Event → Call → Outcome :=
  fun t d =>
    { fail := sameFunction c d && ((t.filter (fun e => sameFunction c e.call)).length == k),
      accepted := 0, indicator := false }

/-- Argument vector of the example runs: `head` followed by the given words. -/
def argvOf (args : List String) : List (List Byte) := bytes "head" :: args.map bytes

/-! # Theorems -/

set_option maxRecDepth 100000

/-! ## Lines -/

theorem readLine_append (c : List Byte) : (readLine c).1 ++ (readLine c).2 = c := by
  induction c with
  | nil => rfl
  | cons b bs ih =>
    unfold readLine
    split
    · rfl
    · simp [ih]

theorem linesAux_cons (c : List Byte) (hc : c ≠ []) (cur : List Byte) :
    linesAux cur c = (cur ++ (readLine c).1) :: linesAux [] (readLine c).2 := by
  induction c generalizing cur with
  | nil => exact absurd rfl hc
  | cons b bs ih =>
    unfold readLine
    by_cases hb : b = NL
    · simp [linesAux, hb]
    · cases bs with
      | nil => simp [linesAux, hb, readLine]
      | cons b2 bs2 =>
        have h := ih (by simp) (cur ++ [b])
        rw [linesAux, if_neg hb, h]
        simp [hb]

theorem lines_nil : lines [] = [] := rfl

theorem lines_cons (b : Byte) (bs : List Byte) :
    lines (b :: bs) = (readLine (b :: bs)).1 :: lines (readLine (b :: bs)).2 := by
  have h := linesAux_cons (b :: bs) (by simp) []
  simpa [lines] using h

theorem flatten_linesAux (c cur : List Byte) : (linesAux cur c).flatten = cur ++ c := by
  induction c generalizing cur with
  | nil => unfold linesAux; split <;> simp_all
  | cons b bs ih =>
    unfold linesAux
    split
    · simp [ih]
    · simp [ih]

theorem flatten_lines (c : List Byte) : (lines c).flatten = c := by
  simpa [lines] using flatten_linesAux c []

theorem firstLines_zero (c : List Byte) : firstLines 0 c = [] := by
  simp [firstLines]

theorem firstLines_nil (n : Nat) : firstLines n [] = [] := by
  simp [firstLines, lines_nil]

theorem firstLines_succ (n : Nat) (b : Byte) (bs : List Byte) :
    firstLines (n + 1) (b :: bs)
      = (readLine (b :: bs)).1 ++ firstLines n (readLine (b :: bs)).2 := by
  simp [firstLines, lines_cons]

theorem afterLines_nil (n : Nat) : afterLines n [] = [] := by
  simp [afterLines, lines_nil]

theorem afterLines_zero (c : List Byte) : afterLines 0 c = c := by
  simp [afterLines, flatten_lines]

theorem afterLines_succ (n : Nat) (b : Byte) (bs : List Byte) :
    afterLines (n + 1) (b :: bs) = afterLines n (readLine (b :: bs)).2 := by
  simp [afterLines, lines_cons]

theorem loopCalls_zero (c : List Byte) : loopCalls 0 c = [] := by
  simp [loopCalls]

theorem loopCalls_nil (n : Nat) : loopCalls (n + 1) [] = [passed Call.getline] := by
  simp [loopCalls, lines_nil]

theorem loopCalls_succ (n : Nat) (b : Byte) (bs : List Byte) :
    loopCalls (n + 1) (b :: bs)
      = passed Call.getline :: passed (Call.fwrite (readLine (b :: bs)).1.length)
          :: loopCalls n (readLine (b :: bs)).2 := by
  simp [loopCalls, lines_cons]

/-! ## The loop of `head_fp` when nothing fails -/

@[simp] theorem record_env (w : World) (c : Call) (b : Bool) :
    (record w c b).env = w.env := rfl

theorem head_fp_loop_quiet (n : Nat) (s : State) (fp : FILE) (hq : Quiet s.sys) :
    head_fp_loop n s fp
      = ({ s with sys := { s.sys with out := s.sys.out ++ firstLines n fp.data,
                                      trace := s.sys.trace ++ loopCalls n fp.data } },
         { fp with data := afterLines n fp.data }) := by
  induction n generalizing s fp with
  | zero =>
    simp [head_fp_loop, firstLines_zero, loopCalls_zero, afterLines_zero]
  | succ n ih =>
    obtain ⟨data, e⟩ := fp
    cases data with
    | nil =>
      simp [head_fp_loop, getline, hq _ _, firstLines_nil, loopCalls_nil, afterLines_nil,
        record, passed]
    | cons b bs =>
      have hq2 : Quiet (fwrite (record s.sys Call.getline false) (readLine (b :: bs)).1).1 := hq
      simp only [head_fp_loop, getline, record_env, hq _ _, Bool.false_eq_true, if_false]
      have hw : (fwrite (record s.sys Call.getline false) (readLine (b :: bs)).1).2
          = (readLine (b :: bs)).1.length := by
        simp [fwrite, hq _ _]
      simp only [hw, ne_eq, not_true_eq_false, if_false]
      rw [ih { head := s.head,
               sys := (fwrite (record s.sys Call.getline false) (readLine (b :: bs)).1).1 }
            _ hq2]
      simp [fwrite, hq _ _, record, firstLines_succ, loopCalls_succ, afterLines_succ, passed]


theorem head_fp_quiet (s : State) (fp : FILE) (hq : Quiet s.sys)
    (he : s.sys.out_error = false) (hf : fp.error = false) :
    head_fp s fp
      = { s with sys := { s.sys with
            out := s.sys.out ++ firstLines s.head.nlines fp.data,
            trace := s.sys.trace ++ (loopCalls s.head.nlines fp.data
                        ++ [passed (Call.ferror false), passed (Call.ferror true)]) } } := by
  unfold head_fp
  simp only [head_fp_loop_quiet _ s fp hq]
  simp [ferror, hq _ _, he, hf, record, passed]

theorem lines_of_ne_nil (c : List Byte) (hc : c ≠ []) :
    lines c = (readLine c).1 :: lines (readLine c).2 := by
  cases c with
  | nil => exact absurd rfl hc
  | cons b bs => exact lines_cons b bs

theorem readLine_fst_ne_nil (c : List Byte) (hc : c ≠ []) : (readLine c).1 ≠ [] := by
  cases c with
  | nil => exact absurd rfl hc
  | cons b bs => unfold readLine; split <;> simp

theorem readLine_fst_append (c x : List Byte) (h : (readLine c).2 ≠ []) :
    readLine ((readLine c).1 ++ x) = ((readLine c).1, x) := by
  induction c with
  | nil => exact absurd rfl h
  | cons b bs ih =>
    unfold readLine at h ⊢
    by_cases hb : b = NL
    · simp [hb, readLine]
    · simp only [hb, if_false] at h ⊢
      simp [readLine, hb, ih h]

theorem readLine_fst_idem (c : List Byte) :
    readLine (readLine c).1 = ((readLine c).1, []) := by
  induction c with
  | nil => rfl
  | cons b bs ih =>
    unfold readLine
    by_cases hb : b = NL
    · simp [hb, readLine]
    · simp only [hb, if_false]
      simp [readLine, hb, ih]

theorem lines_firstLines (n : Nat) (c : List Byte) :
    lines (firstLines n c) = (lines c).take n := by
  induction n generalizing c with
  | zero => simp [firstLines_zero, lines_nil]
  | succ n ih =>
    cases c with
    | nil => simp [firstLines_nil, lines_nil]
    | cons b bs =>
      have hl := readLine_fst_ne_nil (b :: bs) (by simp)
      rw [firstLines_succ, lines_cons, List.take_succ_cons, ← ih]
      by_cases hr : (readLine (b :: bs)).2 = []
      · rw [hr, firstLines_nil, List.append_nil, lines_of_ne_nil _ hl, readLine_fst_idem]
      · rw [lines_of_ne_nil _ (by simp [hl]), readLine_fst_append _ _ hr]


/-! ## C1, C2: one input stream -/

/-- C1: when the input has at least `nlines` lines and no I/O error occurs,
`head_fp` appends to standard output exactly the first `nlines` lines of the
input with their terminators: the bytes written are the concatenation of those
lines, they split into exactly `nlines` lines, each line is read once and
written once by one `fwrite` of its full length, and the status is unchanged. -/
theorem C1_head_fp_first_lines (s : State) (fp : FILE) (hq : Quiet s.sys)
    (he : s.sys.out_error = false) (hf : fp.error = false)
    (hl : s.head.nlines ≤ (lines fp.data).length) :
    (head_fp s fp).sys.out
        = s.sys.out ++ ((lines fp.data).take s.head.nlines).flatten
      ∧ lines ((lines fp.data).take s.head.nlines).flatten
          = (lines fp.data).take s.head.nlines
      ∧ ((lines fp.data).take s.head.nlines).length = s.head.nlines
      ∧ (head_fp s fp).sys.trace
          = s.sys.trace
            ++ (((lines fp.data).take s.head.nlines).flatMap
                  (fun l => [passed Call.getline, passed (Call.fwrite l.length)])
                ++ [passed (Call.ferror false), passed (Call.ferror true)])
      ∧ (head_fp s fp).head.status_code = s.head.status_code := by
  rw [head_fp_quiet s fp hq he hf]
  refine ⟨rfl, lines_firstLines _ _, ?_, ?_, rfl⟩
  · simp [List.length_take, hl]
  · simp [loopCalls, Nat.not_lt.mpr hl]

/-- C1 witness: limit 5 on the 10-line file yields the 5-line file. -/
theorem C1_witness :
    (head_fp (testState 5) { data := file10, error := false }).sys.out = file5 := by
  have h := (C1_head_fp_first_lines (testState 5) { data := file10, error := false }
    (fun _ _ => rfl) rfl rfl (by decide)).1
  rw [h]
  decide

/-- C2: when the input has fewer lines than `nlines` and no I/O error occurs,
the bytes `head_fp` appends to standard output are the whole input, byte for
byte (so an unterminated last line is written in full and gets no terminator);
every line is read once and written once in full, one more `getline` finds
end-of-file, and the status is unchanged. -/
theorem C2_head_fp_whole_input (s : State) (fp : FILE) (hq : Quiet s.sys)
    (he : s.sys.out_error = false) (hf : fp.error = false)
    (hl : (lines fp.data).length < s.head.nlines) :
    (head_fp s fp).sys.out = s.sys.out ++ fp.data
      ∧ (head_fp s fp).sys.trace
          = s.sys.trace
            ++ ((lines fp.data).flatMap (fun l => [passed Call.getline, passed (Call.fwrite l.length)])
                ++ [passed Call.getline, passed (Call.ferror false), passed (Call.ferror true)])
      ∧ (head_fp s fp).head.status_code = s.head.status_code := by
  rw [head_fp_quiet s fp hq he hf]
  refine ⟨?_, ?_, rfl⟩
  · simp [firstLines, List.take_of_length_le (Nat.le_of_lt hl), flatten_lines]
  · simp [loopCalls, List.take_of_length_le (Nat.le_of_lt hl), hl]

/-- C2 witness: limit 100 on the 10-line file gives the 10-line file, and the
default limit on the 5-line file without ending newline gives that file. -/
theorem C2_witness :
    (head_fp (testState 100) { data := file10, error := false }).sys.out = file10
      ∧ (head_fp (testState HEAD_DEFAULT_LINES)
            { data := file5_no_eol, error := false }).sys.out = file5_no_eol :=
  ⟨(C2_head_fp_whole_input (testState 100) { data := file10, error := false }
      (fun _ _ => rfl) rfl rfl (by decide)).1,
   (C2_head_fp_whole_input (testState HEAD_DEFAULT_LINES)
      { data := file5_no_eol, error := false } (fun _ _ => rfl) rfl rfl (by decide)).1⟩

/-! ## One input file and the loop over the inputs when nothing fails -/

theorem head_fp_quiet_calls (s : State) (fp : FILE) (hq : Quiet s.sys)
    (he : s.sys.out_error = false) (hf : fp.error = false) :
    head_fp s fp
      = { s with sys := { s.sys with
            out := s.sys.out ++ firstLines s.head.nlines fp.data,
            trace := s.sys.trace ++ fpCalls s.head.nlines fp.data } } :=
  head_fp_quiet s fp hq he hf

theorem head_path_quiet (s : State) (p c : List Byte) (hq : Quiet s.sys)
    (he : s.sys.out_error = false) (hc : s.sys.files p = some c) :
    head_path s p
      = { s with sys := { s.sys with
            out := s.sys.out ++ firstLines s.head.nlines c,
            trace := s.sys.trace ++ pathCalls s.head.nlines p c } } := by
  unfold head_path
  simp only [fopen, hc, Option.map_some']
  rw [head_fp_quiet _ _ (by exact hq) (by exact he) rfl]
  simp [fclose, hq _ _, record, passed, pathCalls, fpCalls]

theorem head_main_banner_quiet (argc i : Nat) (s : State) (p : List Byte) (ha : 1 < argc)
    (hq : Quiet s.sys) :
    head_main_banner argc i s p
      = { s with sys := { s.sys with
            out := s.sys.out ++ (separator i ++ banner p),
            trace := s.sys.trace ++ ((if i > 0 then [passed Call.putchar] else [])
                        ++ [passed (Call.printf p)]) } } := by
  unfold head_main_banner
  by_cases hi : i > 0
  · simp [ha, hi, putchar, printf, hq _ _, record, passed, separator]
  · simp [ha, hi, putchar, printf, hq _ _, record, passed, separator]

theorem head_main_loop_quiet (argc : Nat) (ha : 1 < argc) (ps : List (List Byte)) :
    ∀ (i : Nat) (s : State), Quiet s.sys → s.sys.out_error = false →
      s.head.status_code = 0 → (∀ p ∈ ps, (s.sys.files p).isSome = true) →
      head_main_loop argc i ps s
        = { s with sys := { s.sys with
              out := s.sys.out ++ multiOut s.head.nlines s.sys.files i ps,
              trace := s.sys.trace ++ multiCalls s.head.nlines s.sys.files i ps } } := by
  induction ps with
  | nil => intro i s _ _ _ _; simp [head_main_loop, multiOut, multiCalls]
  | cons p ps ih =>
    intro i s hq he hs hopen
    obtain ⟨c, hc⟩ := Option.isSome_iff_exists.mp (hopen p (by simp))
    have hstep : head_path (head_main_banner argc i s p) p
        = ({ head := s.head,
             sys := { s.sys with
               out := s.sys.out ++ sectionOut s.head.nlines s.sys.files i p,
               trace := s.sys.trace ++ sectionCalls s.head.nlines s.sys.files i p } } : State) := by
      rw [head_main_banner_quiet argc i s p ha hq,
        head_path_quiet _ p c (by exact hq) (by exact he) (by exact hc)]
      simp [sectionOut, sectionCalls, hc, pathCalls, fpCalls]
    unfold head_main_loop
    rw [if_pos hs, hstep]
    refine (ih (i + 1) _ ?_ ?_ ?_ ?_).trans ?_
    · exact hq
    · exact he
    · exact hs
    · exact fun q hq2 => hopen q (by simp [hq2])
    · simp [multiOut, multiCalls]

/-! ## Argument parsing leaves the streams alone -/

theorem sameSys_refl (w : World) : SameSys w w := ⟨rfl, rfl, rfl, rfl, rfl, rfl⟩

theorem sameSys_trans {a b c : World} (h1 : SameSys a b) (h2 : SameSys b c) : SameSys a c :=
  ⟨h1.1.trans h2.1, h1.2.1.trans h2.2.1, h1.2.2.1.trans h2.2.2.1,
    h1.2.2.2.1.trans h2.2.2.2.1, h1.2.2.2.2.1.trans h2.2.2.2.2.1,
    h1.2.2.2.2.2.trans h2.2.2.2.2.2⟩

theorem head_warn_sameSys (s : State) (e : Bool) (fmt : String) (arg : List Byte) :
    SameSys (head_warn s e fmt arg).sys s.sys := ⟨rfl, rfl, rfl, rfl, rfl, rfl⟩

theorem head_parse_nlines_sameSys (s : State) (str : List Byte) :
    SameSys (head_parse_nlines s str).sys s.sys := by
  unfold head_parse_nlines
  simp only
  split
  · exact head_warn_sameSys _ _ _ _
  · split
    · exact head_warn_sameSys _ _ _ _
    · exact sameSys_refl _

theorem head_main_getopt_sameSys (s : State) (o : Opt) :
    SameSys (head_main_getopt s o).sys s.sys := by
  cases o with
  | n a =>
    exact sameSys_trans (head_parse_nlines_sameSys _ a) ⟨rfl, rfl, rfl, rfl, rfl, rfl⟩
  | unknown => exact ⟨rfl, rfl, rfl, rfl, rfl, rfl⟩

theorem foldl_getopt_sameSys (os : List Opt) (s : State) :
    SameSys (os.foldl head_main_getopt s).sys s.sys := by
  induction os generalizing s with
  | nil => exact sameSys_refl _
  | cons o os ih => exact sameSys_trans (ih _) (head_main_getopt_sameSys s o)

theorem head_main_parse_sameSys (argv : List (List Byte)) (w : World) :
    SameSys (head_main_parse argv w).sys w :=
  foldl_getopt_sameSys _ _

/-! ## C3: several inputs -/

theorem multiOut_pos (n : Nat) (files : List Byte → Option (List Byte))
    (ps : List (List Byte)) (i : Nat) (hi : 0 < i) :
    multiOut n files i ps
      = (ps.map (fun p => [NL] ++ (banner p ++ firstLines n ((files p).getD [])))).flatten := by
  induction ps generalizing i with
  | nil => rfl
  | cons p ps ih =>
    simp [multiOut, sectionOut, separator, hi, ih (i + 1) (Nat.succ_pos i)]

theorem intercalate_cons_eq {α : Type} (sep x : List α) (xs : List (List α)) :
    List.intercalate sep (x :: xs) = x ++ (xs.map (fun y => sep ++ y)).flatten := by
  induction xs generalizing x with
  | nil => simp [List.intercalate]
  | cons y ys ih =>
    have h := ih y
    simp only [List.intercalate, List.intersperse, List.flatten_cons, List.map_cons] at h ⊢
    rw [h]
    simp

theorem multiOut_zero (n : Nat) (files : List Byte → Option (List Byte))
    (ps : List (List Byte)) :
    multiOut n files 0 ps
      = List.intercalate [NL]
          (ps.map (fun p => banner p ++ firstLines n ((files p).getD []))) := by
  cases ps with
  | nil => rfl
  | cons p ps =>
    rw [List.map_cons, intercalate_cons_eq, multiOut, multiOut_pos _ _ _ _ (Nat.succ_pos 0)]
    simp [sectionOut, separator, List.map_map, Function.comp_def]

theorem banner_eq (p : List Byte) : banner p = bytes "==> " ++ p ++ bytes " <==\n" := by
  have h1 : bytes "==> " = [61, 61, 62, 32] := by decide
  have h2 : bytes " <==\n" = [32, 60, 61, 61, 10] := by decide
  rw [h1, h2, banner]

/-- C3: with two or more inputs, all of which can be opened, and no I/O error,
`head_main` appends to standard output the sections of the inputs in order,
joined by a single newline: each section is the banner `"==> " ++ name ++
" <==\n"` with the argument text verbatim, followed by the first `nlines` lines
of that input. Nothing comes before the first banner or after the last body,
and the status is success. -/
theorem C3_multi_input_output (argv : List (List Byte)) (w : World) (hw : NoFault w)
    (hparse : (head_main_parse argv w).head.status_code = 0)
    (hN : 2 ≤ (head_main_operands argv).length)
    (hopen : ∀ p ∈ head_main_operands argv, (w.files p).isSome = true) :
    (head_main argv w).sys.out
        = w.out ++ List.intercalate [NL]
            ((head_main_operands argv).map (fun p =>
              bytes "==> " ++ p ++ bytes " <==\n"
                ++ firstLines (head_main_parse argv w).head.nlines ((w.files p).getD [])))
      ∧ (head_main argv w).head.status_code = EXIT_SUCCESS := by
  obtain ⟨hfiles, _, hout, herr, _, henv⟩ := head_main_parse_sameSys argv w
  have hq : Quiet (head_main_parse argv w).sys := by
    intro t c; rw [henv]; exact hw.1 t c
  have he : (head_main_parse argv w).sys.out_error = false := herr.trans hw.2.2
  have hopen2 : ∀ p ∈ head_main_operands argv,
      ((head_main_parse argv w).sys.files p).isSome = true := by
    intro p hp; rw [hfiles]; exact hopen p hp
  unfold head_main
  simp only [hparse, if_true, Nat.not_lt.mpr (Nat.le_of_succ_le hN), if_false]
  rw [head_main_loop_quiet _ hN _ 0 _ hq he hparse hopen2]
  simp only [multiOut_zero, hfiles, hout, hparse, banner_eq]
  exact ⟨trivial, rfl⟩


/-- C3 witness: the runs on (5.txt, 1.txt) and on (1.txt, 10.txt, 1.txt). -/
theorem C3_witness :
    (head_main (argvOf ["test/files/5.txt", "test/files/1.txt"])
        (testWorld [] quietEnv)).sys.out
      = bytes "==> test/files/5.txt <==\n1: line 1\n2: line 2\n3: line 3\n4: line 4\n5: line 5\n\n==> test/files/1.txt <==\n1: line 1\n"
    ∧ (head_main (argvOf ["test/files/1.txt", "test/files/10.txt", "test/files/1.txt"])
        (testWorld [] quietEnv)).sys.out
      = bytes "==> test/files/1.txt <==\n1: line 1\n\n==> test/files/10.txt <==\n1: line 1\n2: line 2\n3: line 3\n4: line 4\n5: line 5\n6: line 6\n7: line 7\n8: line 8\n9: line 9\n10: line 10\n\n==> test/files/1.txt <==\n1: line 1\n" := by
  have h1 := (C3_multi_input_output (argvOf ["test/files/5.txt", "test/files/1.txt"])
    (testWorld [] quietEnv) ⟨fun _ _ => rfl, rfl, rfl⟩ (by decide) (by decide) (by decide)).1
  have h2 := (C3_multi_input_output
    (argvOf ["test/files/1.txt", "test/files/10.txt", "test/files/1.txt"])
    (testWorld [] quietEnv) ⟨fun _ _ => rfl, rfl, rfl⟩ (by decide) (by decide) (by decide)).1
  rw [h1, h2]
  constructor <;> decide

/-! ## Every failure is recorded, and nothing else is -/

theorem logged_refl (Q : Call → Prop) (s : State) : Logged Q s s :=
  ⟨[], [], by simp, by simp, by simp, Or.inl ⟨rfl, by simp, rfl⟩⟩

theorem logged_trans {Q : Call → Prop} {a b c : State} (h1 : Logged Q a b)
    (h2 : Logged Q b c) : Logged Q a c := by
  obtain ⟨e1, d1, ht1, hd1, hq1, h1⟩ := h1
  obtain ⟨e2, d2, ht2, hd2, hq2, h2⟩ := h2
  refine ⟨e1 ++ e2, d1 ++ d2, by rw [ht2, ht1, List.append_assoc],
    by rw [hd2, hd1, List.append_assoc], ?_, ?_⟩
  · intro e he
    rcases List.mem_append.mp he with h | h
    · exact hq1 e h
    · exact hq2 e h
  rcases h1 with ⟨hs1, hp1, hn1⟩ | ⟨hs1, ⟨e, he, hf⟩, hn1⟩
  · rcases h2 with ⟨hs2, hp2, hn2⟩ | ⟨hs2, ⟨e, he, hf⟩, hn2⟩
    · left
      refine ⟨hs2.trans hs1, ?_, by simp [hn1, hn2]⟩
      intro e he
      rcases List.mem_append.mp he with h | h
      · exact hp1 e h
      · exact hp2 e h
    · right
      exact ⟨hs2, ⟨e, List.mem_append.mpr (Or.inr he), hf⟩, by simp [hn2]⟩
  · right
    refine ⟨?_, ⟨e, List.mem_append.mpr (Or.inl he), hf⟩, by simp [hn1]⟩
    rcases h2 with ⟨hs2, _, _⟩ | ⟨hs2, _, _⟩
    · exact hs2.trans hs1
    · exact hs2

theorem logged_mono {Q R : Call → Prop} {a b : State} (h : ∀ c, Q c → R c)
    (h1 : Logged Q a b) : Logged R a b := by
  obtain ⟨e1, d1, ht1, hd1, hq1, h1⟩ := h1
  exact ⟨e1, d1, ht1, hd1, fun e he => h _ (hq1 e he), h1⟩

theorem logged_pass (Q : Call → Prop) (s t : State) (e : Event)
    (h1 : t.sys.trace = s.sys.trace ++ [e])
    (h2 : t.sys.err = s.sys.err) (h3 : t.head.status_code = s.head.status_code)
    (hq : Q e.call) (he : e.failed = false) : Logged Q s t :=
  ⟨[e], [], h1, by simp [h2], by simp [hq], Or.inl ⟨h3, by simp [he], rfl⟩⟩

theorem logged_fail (Q : Call → Prop) (s t : State) (e : Event)
    (h1 : t.sys.trace = s.sys.trace ++ [e])
    (h2 : t.sys.err = s.sys.err) (hq : Q e.call) (he : e.failed = true) (b : Bool)
    (fmt : String) (arg : List Byte) : Logged Q s (head_warn t b fmt arg) :=
  ⟨[e], [Diag.warn b fmt arg], h1, by simp [head_warn, h2], by simp [hq],
    Or.inr ⟨rfl, ⟨e, by simp, he⟩, by simp⟩⟩

theorem logged_call (Q : Call → Prop) (s : State) (w : World) (e : Event)
    (h : w.trace = s.sys.trace ++ [e] ∧ w.err = s.sys.err) (hq : Q e.call) :
    (e.failed = false → Logged Q s { s with sys := w })
      ∧ (e.failed = true → ∀ (b : Bool) (fmt : String) (arg : List Byte),
          Logged Q s (head_warn { s with sys := w } b fmt arg)) :=
  ⟨fun he => logged_pass Q s _ e h.1 h.2 rfl hq he,
   fun he b fmt arg => logged_fail Q s _ e h.1 h.2 hq he b fmt arg⟩

theorem logged_status {Q : Call → Prop} {s t : State} (h : Logged Q s t)
    (hs : s.head.status_code = EXIT_FAILURE) : t.head.status_code = EXIT_FAILURE := by
  obtain ⟨_, _, _, _, _, h⟩ := h
  rcases h with ⟨h, _, _⟩ | ⟨h, _, _⟩
  · exact h.trans hs
  · exact h

theorem getline_trace (w : World) (fp : FILE) :
    (∃ f, (getline w fp).1.trace = w.trace ++ [{ call := Call.getline, failed := f }]
        ∧ (f = true ↔ (getline w fp).2.2 = Getline.error))
      ∧ (getline w fp).1.err = w.err := by
  unfold getline
  simp only
  split
  · exact ⟨⟨true, by simp [record]⟩, rfl⟩
  · split
    · exact ⟨⟨false, by simp [record]⟩, rfl⟩
    · exact ⟨⟨false, by simp [record]⟩, rfl⟩

theorem fwrite_le (w : World) (l : List Byte) : (fwrite w l).2 ≤ l.length := by
  unfold fwrite
  simp only
  split
  · exact Nat.le_trans (Nat.min_le_right _ _) (Nat.sub_le _ _)
  · exact Nat.le_refl _

theorem fwrite_trace (w : World) (l : List Byte) :
    (fwrite w l).1.trace
      = w.trace ++ [{ call := Call.fwrite l.length, failed := decide ((fwrite w l).2 < l.length) }]
    ∧ (fwrite w l).1.err = w.err := by
  simp [fwrite, record]

theorem head_fp_loop_logged (n : Nat) (s : State) (fp : FILE) :
    Logged streamCall s (head_fp_loop n s fp).1 := by
  induction n generalizing s fp with
  | zero => exact logged_refl _ s
  | succ n ih =>
    obtain ⟨⟨f, hf, hiff⟩, herr⟩ := getline_trace s.sys fp
    have hg := logged_call streamCall s (getline s.sys fp).1 _ ⟨hf, herr⟩ (Or.inl rfl)
    unfold head_fp_loop
    simp only
    split
    · rename_i h
      exact hg.2 (hiff.mpr h) _ _ _
    · rename_i h
      refine hg.1 ?_
      cases f with
      | false => rfl
      | true => rw [hiff.mp rfl] at h; cases h
    · rename_i l h
      have hf0 : f = false := by
        cases f with
        | false => rfl
        | true => rw [hiff.mp rfl] at h; cases h
      refine logged_trans (hg.1 hf0) ?_
      have hw := logged_call streamCall { s with sys := (getline s.sys fp).1 } _ _
        (fwrite_trace (getline s.sys fp).1 l) (Or.inr (Or.inl ⟨_, rfl⟩))
      have hle := fwrite_le (getline s.sys fp).1 l
      split
      · rename_i hne
        exact hw.2 (by simp only [decide_eq_true_eq]; omega) _ _ _
      · rename_i heq
        have heq2 : (fwrite (getline s.sys fp).1 l).2 = l.length := by
          simpa using heq
        exact logged_trans (hw.1 (by simp [heq2])) (ih _ _)

theorem ferror_trace (w : World) (b flag : Bool) :
    (ferror w b flag).1.trace
        = w.trace ++ [{ call := Call.ferror b, failed := (ferror w b flag).2 }]
      ∧ (ferror w b flag).1.err = w.err := by
  simp [ferror, record]

theorem fopen_trace (w : World) (p : List Byte) :
    (fopen w p).1.trace
        = w.trace ++ [{ call := Call.fopen p, failed := (fopen w p).2.isNone }]
      ∧ (fopen w p).1.err = w.err := by
  simp [fopen, record]

theorem fclose_trace (w : World) :
    (fclose w).1.trace = w.trace ++ [{ call := Call.fclose, failed := !(fclose w).2 }]
      ∧ (fclose w).1.err = w.err := by
  simp [fclose, record]

theorem putchar_trace (w : World) (c : Byte) :
    (putchar w c).1.trace = w.trace ++ [{ call := Call.putchar, failed := !(putchar w c).2 }]
      ∧ (putchar w c).1.err = w.err := by
  unfold putchar
  simp only
  split <;> simp_all [record]

theorem printf_trace (w : World) (p : List Byte) :
    (printf w p).1.trace = w.trace ++ [{ call := Call.printf p, failed := !(printf w p).2 }]
      ∧ (printf w p).1.err = w.err := by
  unfold printf
  simp only
  split <;> simp_all [record]

theorem head_fp_logged (s : State) (fp : FILE) : Logged streamCall s (head_fp s fp) := by
  unfold head_fp
  simp only
  refine logged_trans (head_fp_loop_logged s.head.nlines s fp) ?_
  have h1 := logged_call streamCall (head_fp_loop s.head.nlines s fp).1 _ _
    (ferror_trace (head_fp_loop s.head.nlines s fp).1.sys false
      (head_fp_loop s.head.nlines s fp).2.error) (Or.inr (Or.inr ⟨_, rfl⟩))
  split
  · rename_i h
    exact h1.2 h _ _ _
  · rename_i h
    refine logged_trans (h1.1 (by simpa using h)) ?_
    have h2 := logged_call streamCall
      { (head_fp_loop s.head.nlines s fp).1 with
        sys := (ferror (head_fp_loop s.head.nlines s fp).1.sys false
                  (head_fp_loop s.head.nlines s fp).2.error).1 } _ _
      (ferror_trace (ferror (head_fp_loop s.head.nlines s fp).1.sys false
                  (head_fp_loop s.head.nlines s fp).2.error).1 true
        (ferror (head_fp_loop s.head.nlines s fp).1.sys false
                  (head_fp_loop s.head.nlines s fp).2.error).1.out_error)
      (Or.inr (Or.inr ⟨_, rfl⟩))
    split
    · rename_i h3
      exact h2.2 h3 _ _ _
    · rename_i h3
      exact h2.1 (by simpa using h3)

theorem head_path_logged (s : State) (p : List Byte) :
    Logged (pathCall p) s (head_path s p) := by
  unfold head_path
  simp only
  have h1 := logged_call (pathCall p) s _ _ (fopen_trace s.sys p) (Or.inr (Or.inl rfl))
  split
  · rename_i h
    exact h1.2 (by simp [h]) _ _ _
  · rename_i fp h
    refine logged_trans (h1.1 (by simp [h]))
      (logged_trans (logged_mono (fun _ hc => Or.inl hc) (head_fp_logged _ fp)) ?_)
    have h2 := logged_call (pathCall p) (head_fp { s with sys := (fopen s.sys p).1 } fp) _ _
      (fclose_trace (head_fp { s with sys := (fopen s.sys p).1 } fp).sys)
      (Or.inr (Or.inr rfl))
    split
    · rename_i hc
      exact h2.1 (by simp [hc])
    · rename_i hc
      exact h2.2 (by simpa using hc) _ _ _

theorem putchar_logged (p : List Byte) (s : State) :
    Logged (bannerCall p) s (if (putchar s.sys NL).2 then { s with sys := (putchar s.sys NL).1 }
              else head_warn { s with sys := (putchar s.sys NL).1 } true "putchar: <NL>" []) := by
  have h1 := logged_call (bannerCall p) s _ _ (putchar_trace s.sys NL) (Or.inl rfl)
  split
  · rename_i h
    exact h1.1 (by simp [h])
  · rename_i h
    exact h1.2 (by simpa using h) _ _ _

theorem printf_logged (s : State) (p : List Byte) :
    Logged (bannerCall p) s (if (printf s.sys p).2 then { s with sys := (printf s.sys p).1 }
              else head_warn { s with sys := (printf s.sys p).1 } true
                "printf: file header" []) := by
  have h1 := logged_call (bannerCall p) s _ _ (printf_trace s.sys p) (Or.inr rfl)
  split
  · rename_i h
    exact h1.1 (by simp [h])
  · rename_i h
    exact h1.2 (by simpa using h) _ _ _

theorem head_main_banner_logged (argc i : Nat) (s : State) (p : List Byte) :
    Logged (bannerCall p) s (head_main_banner argc i s p) := by
  unfold head_main_banner
  split
  · simp only
    split
    · exact logged_trans (putchar_logged p s) (printf_logged _ p)
    · exact printf_logged s p
  · exact logged_refl _ s

theorem head_main_loop_logged (argc : Nat) (ps : List (List Byte)) (i : Nat) (s : State) :
    Logged (fun _ => True) s (head_main_loop argc i ps s) := by
  induction ps generalizing i s with
  | nil => exact logged_refl _ s
  | cons p ps ih =>
    unfold head_main_loop
    split
    · exact logged_trans (logged_trans
        (logged_mono (fun _ _ => trivial) (head_main_banner_logged argc i s p))
        (logged_mono (fun _ _ => trivial) (head_path_logged _ p))) (ih _ _)
    · exact logged_refl _ s

/-! ## C4: an input that cannot be opened -/

theorem head_main_loop_stop (argc i : Nat) (ps : List (List Byte)) (s : State)
    (h : s.head.status_code ≠ 0) : head_main_loop argc i ps s = s := by
  cases ps with
  | nil => rfl
  | cons p ps => rw [head_main_loop, if_neg h]

theorem head_main_loop_append (argc : Nat) (a b : List (List Byte)) (i : Nat) (s : State) :
    head_main_loop argc i (a ++ b) s
      = head_main_loop argc (i + a.length) b (head_main_loop argc i a s) := by
  induction a generalizing i s with
  | nil => simp [head_main_loop]
  | cons p ps ih =>
    by_cases h : s.head.status_code = 0
    · have e : i + (p :: ps).length = i + 1 + ps.length := by
        simp only [List.length_cons]; omega
      rw [List.cons_append, head_main_loop, if_pos h, head_main_loop, if_pos h, ih, e]
    · rw [head_main_loop_stop _ _ (p :: ps) _ h, head_main_loop_stop _ _ _ _ h,
        head_main_loop_stop _ _ _ _ h]

theorem head_path_missing (s : State) (p : List Byte) (h : s.sys.files p = none) :
    head_path s p
      = head_warn { s with sys := record s.sys (Call.fopen p) true } true "fopen: %s" p := by
  simp [head_path, fopen, h]

theorem multiOut_append (n : Nat) (files : List Byte → Option (List Byte))
    (a b : List (List Byte)) (i : Nat) :
    multiOut n files i (a ++ b) = multiOut n files i a ++ multiOut n files (i + a.length) b := by
  induction a generalizing i with
  | nil => simp [multiOut]
  | cons p ps ih =>
    have e : i + (p :: ps).length = i + 1 + ps.length := by
      simp only [List.length_cons]; omega
    rw [List.cons_append, multiOut, multiOut, ih, e, List.append_assoc]

theorem openCalls_append (a b : List Event) : openCalls (a ++ b) = openCalls a ++ openCalls b := by
  simp [openCalls, List.filterMap_append]

theorem bannerCalls_append (a b : List Event) :
    bannerCalls (a ++ b) = bannerCalls a ++ bannerCalls b := by
  simp [bannerCalls, List.filterMap_append]

theorem openCalls_loopCalls (n : Nat) (c : List Byte) : openCalls (loopCalls n c) = [] := by
  unfold loopCalls openCalls
  rw [List.filterMap_eq_nil_iff]
  intro e he
  simp only [List.mem_append, List.mem_flatMap] at he
  rcases he with ⟨l, _, hl⟩ | hl
  · simp only [List.mem_cons, List.mem_singleton, List.not_mem_nil, or_false] at hl
    rcases hl with h | h <;> simp [h, passed]
  · split at hl
    · simp only [List.mem_singleton] at hl
      simp [hl, passed]
    · simp at hl

theorem bannerCalls_loopCalls (n : Nat) (c : List Byte) : bannerCalls (loopCalls n c) = [] := by
  unfold loopCalls bannerCalls
  rw [List.filterMap_eq_nil_iff]
  intro e he
  simp only [List.mem_append, List.mem_flatMap] at he
  rcases he with ⟨l, _, hl⟩ | hl
  · simp only [List.mem_cons, List.mem_singleton, List.not_mem_nil, or_false] at hl
    rcases hl with h | h <;> simp [h, passed]
  · split at hl
    · simp only [List.mem_singleton] at hl
      simp [hl, passed]
    · simp at hl

theorem openCalls_sectionCalls (n : Nat) (files : List Byte → Option (List Byte)) (i : Nat)
    (p : List Byte) : openCalls (sectionCalls n files i p) = [p] := by
  unfold sectionCalls
  simp only [openCalls_append, openCalls_loopCalls]
  by_cases hi : i > 0 <;> simp [hi, openCalls, passed]

theorem bannerCalls_sectionCalls (n : Nat) (files : List Byte → Option (List Byte)) (i : Nat)
    (p : List Byte) : bannerCalls (sectionCalls n files i p) = [p] := by
  unfold sectionCalls
  simp only [bannerCalls_append, bannerCalls_loopCalls]
  by_cases hi : i > 0 <;> simp [hi, bannerCalls, passed]

theorem openCalls_multiCalls (n : Nat) (files : List Byte → Option (List Byte))
    (ps : List (List Byte)) (i : Nat) : openCalls (multiCalls n files i ps) = ps := by
  induction ps generalizing i with
  | nil => rfl
  | cons p ps ih => simp [multiCalls, openCalls_append, openCalls_sectionCalls, ih]

theorem bannerCalls_multiCalls (n : Nat) (files : List Byte → Option (List Byte))
    (ps : List (List Byte)) (i : Nat) : bannerCalls (multiCalls n files i ps) = ps := by
  induction ps generalizing i with
  | nil => rfl
  | cons p ps ih => simp [multiCalls, bannerCalls_append, bannerCalls_sectionCalls, ih]

theorem head_main_missing (argv : List (List Byte)) (w : World)
    (pre : List (List Byte)) (m : List Byte) (post : List (List Byte)) (hw : NoFault w)
    (hparse : (head_main_parse argv w).head.status_code = 0)
    (hops : head_main_operands argv = pre ++ m :: post)
    (hN : 2 ≤ (pre ++ m :: post).length)
    (hpre : ∀ p ∈ pre, (w.files p).isSome = true) (hm : w.files m = none) :
    head_main argv w
      = { head := { status_code := EXIT_FAILURE, nlines := (head_main_parse argv w).head.nlines },
          sys := { (head_main_parse argv w).sys with
            out := w.out ++ multiOut (head_main_parse argv w).head.nlines w.files 0 (pre ++ [m]),
            trace := w.trace ++ (multiCalls (head_main_parse argv w).head.nlines w.files 0 pre
              ++ ((if pre.length > 0 then [passed Call.putchar] else [])
                  ++ [passed (Call.printf m), { call := Call.fopen m, failed := true }])),
            err := (head_main_parse argv w).sys.err ++ [Diag.warn true "fopen: %s" m] } } := by
  obtain ⟨hfiles, _, hout, herr, htrace, henv⟩ := head_main_parse_sameSys argv w
  have hq : Quiet (head_main_parse argv w).sys := by
    intro t c; rw [henv]; exact hw.1 t c
  have he : (head_main_parse argv w).sys.out_error = false := herr.trans hw.2.2
  have hpre2 : ∀ p ∈ pre, ((head_main_parse argv w).sys.files p).isSome = true := by
    intro p hp; rw [hfiles]; exact hpre p hp
  have hm2 : (head_main_parse argv w).sys.files m = none := by rw [hfiles]; exact hm
  unfold head_main
  simp only [hparse, if_true, hops, Nat.not_lt.mpr (Nat.le_of_succ_le hN), if_false]
  rw [head_main_loop_append, head_main_loop_quiet _ hN _ 0 _ hq he hparse hpre2]
  rw [head_main_loop, if_pos (by exact hparse),
    head_main_banner_quiet _ _ _ _ hN (by exact hq), head_path_missing _ _ (by exact hm2),
    head_main_loop_stop _ _ _ _ (by simp [head_warn, EXIT_FAILURE])]
  simp [head_warn, record, multiOut_append, multiOut, sectionOut, hm, hfiles, hout, htrace,
    firstLines_nil]


theorem newEvents_append (w : World) (s : State) (evs : List Event)
    (h : s.sys.trace = w.trace ++ evs) : newEvents w s = evs := by
  simp [newEvents, h]

/-- C4 (as amended): when, in a run over two or more inputs in which nothing
else fails, the input `m` cannot be opened, the exit status is failure, no
body bytes are written for `m` (only its separator and banner), every input
before `m` is fully processed with its banner and first `nlines` lines, and
the loop ends there: the inputs after `m` get no banner and are not opened. -/
theorem C4_missing_input_ends_run (argv : List (List Byte)) (w : World)
    (pre : List (List Byte)) (m : List Byte) (post : List (List Byte)) (hw : NoFault w)
    (hparse : (head_main_parse argv w).head.status_code = 0)
    (hops : head_main_operands argv = pre ++ m :: post)
    (hN : 2 ≤ (pre ++ m :: post).length)
    (hpre : ∀ p ∈ pre, (w.files p).isSome = true) (hm : w.files m = none) :
    (head_main argv w).head.status_code = EXIT_FAILURE
      ∧ (head_main argv w).sys.out
          = w.out ++ List.intercalate [NL]
              (pre.map (fun p => bytes "==> " ++ p ++ bytes " <==\n"
                  ++ firstLines (head_main_parse argv w).head.nlines ((w.files p).getD []))
                ++ [bytes "==> " ++ m ++ bytes " <==\n"])
      ∧ openCalls (newEvents w (head_main argv w)) = pre ++ [m]
      ∧ bannerCalls (newEvents w (head_main argv w)) = pre ++ [m] := by
  rw [head_main_missing argv w pre m post hw hparse hops hN hpre hm]
  refine ⟨rfl, ?_, ?_, ?_⟩
  · simp only [multiOut_zero, List.map_append, List.map_cons, List.map_nil, hm,
      Option.getD_none, firstLines_nil, List.append_nil, banner_eq]
  · rw [newEvents_append w _ _ rfl, openCalls_append, openCalls_multiCalls]
    by_cases h0 : pre.length > 0 <;> simp [h0, openCalls, passed]
  · rw [newEvents_append w _ _ rfl, bannerCalls_append, bannerCalls_multiCalls]
    by_cases h0 : pre.length > 0 <;> simp [h0, bannerCalls, passed]

/-- C4 witness: the run on (/noexist.txt, test/files/1.txt) fails and writes
only the banner of the missing file. -/
theorem C4_witness :
    (head_main (argvOf ["/noexist.txt", "test/files/1.txt"])
        (testWorld [] quietEnv)).head.status_code = EXIT_FAILURE
      ∧ (head_main (argvOf ["/noexist.txt", "test/files/1.txt"])
          (testWorld [] quietEnv)).sys.out = bytes "==> /noexist.txt <==\n" := by
  have h := C4_missing_input_ends_run (argvOf ["/noexist.txt", "test/files/1.txt"])
    (testWorld [] quietEnv) [] (bytes "/noexist.txt") [bytes "test/files/1.txt"]
    ⟨fun _ _ => rfl, rfl, rfl⟩ (by decide) (by decide) (by decide) (by decide) (by decide)
  refine ⟨h.1, ?_⟩
  rw [h.2.1]
  decide

/-- C4 counterexample: in the run on (/noexist.txt, test/files/1.txt) the
sibling `test/files/1.txt`, which can be opened, is not processed: the output is
the banner of the missing file alone, neither the banner nor the line of the
sibling is in it, and the only `fopen` is that of the missing file. -/
theorem C4_counterexample :
    testFiles (bytes "test/files/1.txt") = some file1
      ∧ (head_main (argvOf ["/noexist.txt", "test/files/1.txt"])
          (testWorld [] quietEnv)).sys.out = bytes "==> /noexist.txt <==\n"
      ∧ ¬ (bytes "==> test/files/1.txt <==\n" <:+:
            (head_main (argvOf ["/noexist.txt", "test/files/1.txt"])
              (testWorld [] quietEnv)).sys.out)
      ∧ ¬ (file1 <:+:
            (head_main (argvOf ["/noexist.txt", "test/files/1.txt"])
              (testWorld [] quietEnv)).sys.out)
      ∧ openCalls (head_main (argvOf ["/noexist.txt", "test/files/1.txt"])
          (testWorld [] quietEnv)).sys.trace = [bytes "/noexist.txt"] := by
  decide

/-! ## C5: a separator or banner that cannot be written -/

theorem openCalls_nil_of (evs : List Event) (h : ∀ e ∈ evs, ∀ q, e.call ≠ Call.fopen q) :
    openCalls evs = [] := by
  unfold openCalls
  rw [List.filterMap_eq_nil_iff]
  intro e he
  have := h e he
  split
  · rename_i q hq; exact absurd hq (this q)
  · rfl

theorem bannerCalls_nil_of (evs : List Event) (h : ∀ e ∈ evs, ∀ q, e.call ≠ Call.printf q) :
    bannerCalls evs = [] := by
  unfold bannerCalls
  rw [List.filterMap_eq_nil_iff]
  intro e he
  have := h e he
  split
  · rename_i q hq; exact absurd hq (this q)
  · rfl

theorem streamCall_ne_fopen (c : Call) (h : streamCall c ∨ c = Call.fclose) (q : List Byte) :
    c ≠ Call.fopen q := by
  rcases h with (h | ⟨n, h⟩ | ⟨b, h⟩) | h <;> simp [h]

theorem streamCall_ne_printf (c : Call) (h : streamCall c ∨ c = Call.fclose) (q : List Byte) :
    c ≠ Call.printf q := by
  rcases h with (h | ⟨n, h⟩ | ⟨b, h⟩) | h <;> simp [h]

theorem head_path_trace (s : State) (p : List Byte) :
    ∃ f evs, (head_path s p).sys.trace
        = s.sys.trace ++ { call := Call.fopen p, failed := f } :: evs
      ∧ ∀ e ∈ evs, streamCall e.call ∨ e.call = Call.fclose := by
  unfold head_path
  simp only
  split
  · exact ⟨(s.sys.files p).isNone, [], by simp [head_warn, fopen, record], by simp⟩
  · rename_i fp h
    obtain ⟨evs, ds, ht, _, hq, _⟩ := head_fp_logged { s with sys := (fopen s.sys p).1 } fp
    refine ⟨(s.sys.files p).isNone, evs ++ [Event.mk Call.fclose
      (!(fclose (head_fp { s with sys := (fopen s.sys p).1 } fp).sys).2)], ?_, ?_⟩
    · have hc := (fclose_trace (head_fp { s with sys := (fopen s.sys p).1 } fp).sys).1
      have hrw : ∀ (x : State) (b : Bool) (m : String) (a : List Byte) (c : Prop)
          [Decidable c], (if c then x else head_warn x b m a).sys.trace = x.sys.trace := by
        intro x b m a c _; split <;> rfl
      rw [hrw, hc, ht]
      simp [fopen, record]
    · intro e he
      rcases List.mem_append.mp he with h1 | h1
      · exact Or.inl (hq e h1)
      · simp only [List.mem_singleton] at h1
        exact Or.inr (by rw [h1])

theorem head_main_banner_trace (argc i : Nat) (s : State) (p : List Byte) (ha : 1 < argc) :
    ∃ f1 f2, (head_main_banner argc i s p).sys.trace
      = s.sys.trace ++ ((if i > 0 then [{ call := Call.putchar, failed := f1 }] else [])
          ++ [{ call := Call.printf p, failed := f2 }]) := by
  have hrw : ∀ (x : State) (b : Bool) (m : String) (a : List Byte) (c : Prop)
      [Decidable c], (if c then x else head_warn x b m a).sys.trace = x.sys.trace := by
    intro x b m a c _; split <;> rfl
  unfold head_main_banner
  rw [if_pos ha]
  simp only
  by_cases hi : i > 0
  · simp only [if_pos hi]
    rw [hrw, (printf_trace _ p).1, hrw, (putchar_trace _ NL).1]
    exact ⟨_, _, List.append_assoc _ _ _⟩
  · simp only [if_neg hi]
    rw [hrw, (printf_trace _ p).1]
    exact ⟨false, _, rfl⟩

/-- C5 (as amended): when, in a run over two or more inputs, the turn of the
input `p` comes and the separator or the banner of `p` cannot be written, the
run is marked failed, `p` is still handed to `head_path` (it is opened, once,
after its banner was attempted, once), and the loop ends there: from that turn
on no other input gets a banner or is opened. -/
theorem C5_banner_failure_ends_run (argv : List (List Byte)) (w : World)
    (pre : List (List Byte)) (p : List Byte) (post : List (List Byte))
    (hparse : (head_main_parse argv w).head.status_code = 0)
    (hops : head_main_operands argv = pre ++ p :: post)
    (hN : 2 ≤ (pre ++ p :: post).length)
    (hturn : (atTurn argv w pre).head.status_code = 0)
    (hfail : ∃ e ∈ newEvents (atTurn argv w pre).sys
        (head_main_banner (pre ++ p :: post).length pre.length (atTurn argv w pre) p),
        e.failed = true) :
    head_main argv w
        = head_path (head_main_banner (pre ++ p :: post).length pre.length
            (atTurn argv w pre) p) p
      ∧ (head_main argv w).head.status_code = EXIT_FAILURE
      ∧ openCalls (newEvents (atTurn argv w pre).sys (head_main argv w)) = [p]
      ∧ bannerCalls (newEvents (atTurn argv w pre).sys (head_main argv w)) = [p] := by
  have hb := head_main_banner_logged (pre ++ p :: post).length pre.length (atTurn argv w pre) p
  have hbs : (head_main_banner (pre ++ p :: post).length pre.length
      (atTurn argv w pre) p).head.status_code = EXIT_FAILURE := by
    obtain ⟨evs, ds, ht, _, _, h⟩ := hb
    rw [newEvents_append _ _ evs ht] at hfail
    rcases h with ⟨_, hp, _⟩ | ⟨h, _, _⟩
    · obtain ⟨e, he, hf⟩ := hfail
      rw [hp e he] at hf
      cases hf
    · exact h
  have hps := logged_status (head_path_logged (head_main_banner (pre ++ p :: post).length
    pre.length (atTurn argv w pre) p) p) hbs
  have hmain : head_main argv w
      = head_path (head_main_banner (pre ++ p :: post).length pre.length
          (atTurn argv w pre) p) p := by
    unfold head_main
    simp only [hparse, if_true, hops, Nat.not_lt.mpr (Nat.le_of_succ_le hN), if_false]
    rw [head_main_loop_append]
    have e : head_main_loop (pre ++ p :: post).length 0 pre (head_main_parse argv w)
        = atTurn argv w pre := by rw [atTurn, hops]
    rw [e, head_main_loop, if_pos hturn, Nat.zero_add,
      head_main_loop_stop _ _ _ _ (by rw [hps]; decide)]
  obtain ⟨f1, f2, hbt⟩ := head_main_banner_trace (pre ++ p :: post).length pre.length
    (atTurn argv w pre) p hN
  obtain ⟨f, evs, hpt, hq⟩ := head_path_trace (head_main_banner (pre ++ p :: post).length
    pre.length (atTurn argv w pre) p) p
  have htr : (head_main argv w).sys.trace = (atTurn argv w pre).sys.trace
      ++ (((if pre.length > 0 then [{ call := Call.putchar, failed := f1 }] else [])
          ++ [{ call := Call.printf p, failed := f2 }])
        ++ { call := Call.fopen p, failed := f } :: evs) := by
    rw [hmain, hpt, hbt, List.append_assoc]
  refine ⟨hmain, by rw [hmain]; exact hps, ?_, ?_⟩
  · have h3 : openCalls evs = [] :=
      openCalls_nil_of evs (fun e he q => streamCall_ne_fopen _ (hq e he) q)
    have h4 : openCalls (Event.mk (Call.fopen p) f :: evs) = [p] := by
      rw [show Event.mk (Call.fopen p) f :: evs = [Event.mk (Call.fopen p) f] ++ evs from rfl,
        openCalls_append, h3]
      rfl
    have h5 : openCalls ((if pre.length > 0 then [Event.mk Call.putchar f1] else [])
        ++ [Event.mk (Call.printf p) f2]) = [] := by
      by_cases h0 : pre.length > 0 <;> simp [h0, openCalls]
    rw [newEvents_append _ _ _ htr, openCalls_append, h4, h5]
    rfl
  · have h3 : bannerCalls evs = [] :=
      bannerCalls_nil_of evs (fun e he q => streamCall_ne_printf _ (hq e he) q)
    have h4 : bannerCalls (Event.mk (Call.fopen p) f :: evs) = [] := by
      rw [show Event.mk (Call.fopen p) f :: evs = [Event.mk (Call.fopen p) f] ++ evs from rfl,
        bannerCalls_append, h3]
      rfl
    have h5 : bannerCalls ((if pre.length > 0 then [Event.mk Call.putchar f1] else [])
        ++ [Event.mk (Call.printf p) f2]) = [p] := by
      by_cases h0 : pre.length > 0 <;> simp [h0, bannerCalls]
    rw [newEvents_append _ _ _ htr, bannerCalls_append, h4, h5]
    rfl

/-- C5 witness: two inputs (README.md, README.md) with the first banner
`printf` forced to fail: the run fails, the first input is still opened and
its banner attempted, and nothing is done for the second. -/
theorem C5_witness :
    (head_main (argvOf ["README.md", "README.md"])
        (testWorld [] (seamEnv (Call.printf []) 0))).head.status_code = EXIT_FAILURE
      ∧ openCalls (newEvents
          (atTurn (argvOf ["README.md", "README.md"])
            (testWorld [] (seamEnv (Call.printf []) 0)) []).sys
          (head_main (argvOf ["README.md", "README.md"])
            (testWorld [] (seamEnv (Call.printf []) 0)))) = [bytes "README.md"] :=
  have h := C5_banner_failure_ends_run (argvOf ["README.md", "README.md"])
    (testWorld [] (seamEnv (Call.printf []) 0)) [] (bytes "README.md") [bytes "README.md"]
    (by decide) (by decide) (by decide) (by decide) (by decide)
  ⟨h.2.1, h.2.2.1⟩

/-- C5 counterexample: on the inputs (README.md, README.md), when the first
banner `printf` fails the first input is nevertheless opened and its lines are
written, and the second input gets neither banner nor `fopen`; when the
separator `putchar` fails the second input is nevertheless opened and its
lines are written. -/
theorem C5_counterexample :
    (head_main (argvOf ["README.md", "README.md"])
        (testWorld [] (seamEnv (Call.printf []) 0))).sys.out = readme
      ∧ openCalls (head_main (argvOf ["README.md", "README.md"])
          (testWorld [] (seamEnv (Call.printf []) 0))).sys.trace = [bytes "README.md"]
      ∧ bannerCalls (head_main (argvOf ["README.md", "README.md"])
          (testWorld [] (seamEnv (Call.printf []) 0))).sys.trace = [bytes "README.md"]
      ∧ (head_main (argvOf ["README.md", "README.md"])
          (testWorld [] (seamEnv Call.putchar 0))).sys.out
          = bytes "==> README.md <==\n" ++ readme ++ bytes "==> README.md <==\n" ++ readme
      ∧ openCalls (head_main (argvOf ["README.md", "README.md"])
          (testWorld [] (seamEnv Call.putchar 0))).sys.trace
          = [bytes "README.md", bytes "README.md"] := by
  decide

/-! ## C6: the line count -/

theorem head_parse_nlines_rejected (st : State) (s : List Byte) (h : nlinesRejected s) :
    ∃ b fmt, head_parse_nlines st s
      = head_warn { st with head := { st.head with nlines := (strtoumax s).value } } b fmt s := by
  unfold head_parse_nlines
  simp only
  by_cases h1 : s = [] ∨ (strtoumax s).ep ≠ []
  · rw [if_pos h1]; exact ⟨_, _, rfl⟩
  · rw [if_neg h1]
    have h2 : (strtoumax s).value = UINTMAX_MAX ∧ (strtoumax s).erange = true := by
      rcases h with h | h | h
      · exact absurd (Or.inl h) h1
      · exact absurd (Or.inr h) h1
      · exact h
    rw [if_pos h2]; exact ⟨_, _, rfl⟩

theorem head_parse_nlines_accepted (st : State) (s : List Byte) (h : ¬ nlinesRejected s) :
    head_parse_nlines st s
      = { st with head := { st.head with nlines := (strtoumax s).value } } := by
  unfold head_parse_nlines
  simp only
  rw [if_neg (fun h1 => h (by rcases h1 with h1 | h1; exact Or.inl h1; exact Or.inr (Or.inl h1))),
    if_neg (fun h2 => h (Or.inr (Or.inr h2)))]

theorem head_parse_nlines_err (st : State) (s : List Byte) :
    (head_parse_nlines st s).sys.err = st.sys.err ↔ ¬ nlinesRejected s := by
  by_cases h : nlinesRejected s
  · obtain ⟨b, fmt, e⟩ := head_parse_nlines_rejected st s h
    simp [e, head_warn, h]
  · simp [head_parse_nlines_accepted st s h, h]

/-! ### `strtoumax` on a well-formed count -/

theorem isdigit_not_space (c : Byte) (h : isdigit c = true) : isspace c = false := by
  simp only [isdigit, Bool.and_eq_true, decide_eq_true_eq] at h
  simp only [isspace, Bool.or_eq_false_iff, decide_eq_false_iff_not, Bool.and_eq_false_imp,
    decide_eq_true_eq]
  omega

theorem isdigit_not_sign (c : Byte) (h : isdigit c = true) : c ≠ 45 ∧ c ≠ 43 := by
  constructor
  · intro e; rw [e] at h; exact absurd h (by decide)
  · intro e; rw [e] at h; exact absurd h (by decide)

theorem dropWhile_append_all (p : Byte → Bool) (a b : List Byte) (h : ∀ c ∈ a, p c = true) :
    (a ++ b).dropWhile p = b.dropWhile p := by
  induction a with
  | nil => rfl
  | cons x xs ih =>
    have hx : p x = true := h x (by simp)
    simp only [List.cons_append, List.dropWhile_cons, hx, if_true]
    exact ih (fun c hc => h c (by simp [hc]))

theorem takeWhile_all (p : Byte → Bool) (a : List Byte) (h : ∀ c ∈ a, p c = true) :
    a.takeWhile p = a := by
  induction a with
  | nil => rfl
  | cons x xs ih =>
    have hx : p x = true := h x (by simp)
    simp only [List.takeWhile_cons, hx, if_true]
    rw [ih (fun c hc => h c (by simp [hc]))]

theorem dropWhile_all (p : Byte → Bool) (a : List Byte) (h : ∀ c ∈ a, p c = true) :
    a.dropWhile p = [] := by
  have := dropWhile_append_all p a [] h
  simpa using this

theorem strtoumax_parts (ws sg ds : List Byte) (hws : ∀ c ∈ ws, isspace c = true)
    (hsg : sg = [] ∨ sg = [43] ∨ sg = [45]) (hne : ds ≠ [])
    (hds : ∀ c ∈ ds, isdigit c = true) :
    strtoumax (ws ++ sg ++ ds)
      = if UINTMAX_MAX < digitsValue ds then
          { value := UINTMAX_MAX, ep := [], erange := true }
        else { value := countValue sg ds, ep := [], erange := false } := by
  obtain ⟨d, ds1, rfl⟩ := List.exists_cons_of_ne_nil hne
  have hd : isdigit d = true := hds d (by simp)
  have hdrop : (ws ++ sg ++ d :: ds1).dropWhile isspace = sg ++ d :: ds1 := by
    rw [List.append_assoc, dropWhile_append_all _ _ _ hws]
    rcases hsg with h | h | h
    · simp [h, List.dropWhile_cons, isdigit_not_space d hd]
    · rw [h]; rfl
    · rw [h]; rfl
  have hsign : strto_sign (sg ++ d :: ds1) = (decide (sg = [45]), d :: ds1) := by
    rcases hsg with h | h | h
    · simp [h, strto_sign, (isdigit_not_sign d hd).1, (isdigit_not_sign d hd).2]
    · rw [h]; rfl
    · rw [h]; rfl
  unfold strtoumax
  simp only [hdrop, hsign, takeWhile_all _ _ hds, dropWhile_all _ _ hds]
  simp [countValue]

theorem strto_sign_parts (x : List Byte) :
    ∃ sg, (sg = [] ∨ sg = [43] ∨ sg = [45]) ∧ x = sg ++ (strto_sign x).2 := by
  cases x with
  | nil => exact ⟨[], Or.inl rfl, rfl⟩
  | cons c r =>
    unfold strto_sign
    by_cases h1 : c = 45
    · exact ⟨[45], Or.inr (Or.inr rfl), by simp [h1]⟩
    · by_cases h2 : c = 43
      · exact ⟨[43], Or.inr (Or.inl rfl), by simp [h1, h2]⟩
      · exact ⟨[], Or.inl rfl, by simp [h1, h2]⟩

theorem count_of_accepted (s : List Byte) (h : ¬ nlinesRejected s) :
    ∃ ws sg ds, s = ws ++ sg ++ ds ∧ IsCount ws sg ds := by
  obtain ⟨sg, hsg, hx⟩ := strto_sign_parts (s.dropWhile isspace)
  have hne : s ≠ [] := fun e => h (Or.inl e)
  have hep : (strtoumax s).ep = [] := by
    by_contra e; exact h (Or.inr (Or.inl e))
  have hov : ¬ ((strtoumax s).value = UINTMAX_MAX ∧ (strtoumax s).erange = true) :=
    fun e => h (Or.inr (Or.inr e))
  have hs : s = s.takeWhile isspace ++ s.dropWhile isspace :=
    (List.takeWhile_append_dropWhile isspace s).symm
  have hr : (strto_sign (s.dropWhile isspace)).2
      = (strto_sign (s.dropWhile isspace)).2.takeWhile isdigit
        ++ (strto_sign (s.dropWhile isspace)).2.dropWhile isdigit :=
    (List.takeWhile_append_dropWhile isdigit _).symm
  unfold strtoumax at hep hov
  simp only at hep hov
  by_cases hds : (strto_sign (s.dropWhile isspace)).2.takeWhile isdigit = []
  · rw [if_pos hds] at hep
    exact absurd hep hne
  · rw [if_neg hds] at hep hov
    by_cases hbig : UINTMAX_MAX
        < digitsValue ((strto_sign (s.dropWhile isspace)).2.takeWhile isdigit)
    · rw [if_pos hbig] at hov
      exact absurd ⟨rfl, rfl⟩ hov
    · rw [if_neg hbig] at hep
      simp only at hep
      rw [hep, List.append_nil] at hr
      refine ⟨s.takeWhile isspace, sg,
        (strto_sign (s.dropWhile isspace)).2.takeWhile isdigit, ?_, ?_, hsg, hds, ?_,
        Nat.le_of_not_lt hbig⟩
      · rw [List.append_assoc, ← hr, ← hx]
        exact hs
      · intro c hc
        exact (List.mem_takeWhile_imp hc)
      · intro c hc
        exact (List.mem_takeWhile_imp hc)

theorem accepted_of_count (ws sg ds : List Byte) (h : IsCount ws sg ds) :
    ¬ nlinesRejected (ws ++ sg ++ ds) ∧ (strtoumax (ws ++ sg ++ ds)).value = countValue sg ds := by
  obtain ⟨hws, hsg, hne, hds, hle⟩ := h
  have e := strtoumax_parts ws sg ds hws hsg hne hds
  rw [if_neg (Nat.not_lt.mpr hle)] at e
  refine ⟨?_, by rw [e]⟩
  unfold nlinesRejected
  rw [e]
  obtain ⟨d, ds1, rfl⟩ := List.exists_cons_of_ne_nil hne
  simp

/-- C6 (as amended): `head_parse_nlines` accepts its argument (writes no
diagnostic and leaves the status alone) if and only if the argument is made of
optional white space, an optional `'+'` or `'-'` sign and a non-empty run of
decimal digits whose value is at most `2 ^ 64 - 1`, with nothing after the
digits; `nlines` is then that value, negated modulo `2 ^ 64` after a minus
sign. Every other argument (the empty string, no digits, anything after the
digits, a value of `2 ^ 64` or more) marks the run failed. In particular a
non-empty string of decimal digits is accepted exactly when its value is at
most `2 ^ 64 - 1`, and `nlines` is then that value. -/
theorem C6_parse_nlines_accepts (st : State) (s : List Byte) :
    ((head_parse_nlines st s).sys.err = st.sys.err
        ↔ ∃ ws sg ds, s = ws ++ sg ++ ds ∧ IsCount ws sg ds)
      ∧ (∀ ws sg ds, s = ws ++ sg ++ ds → IsCount ws sg ds →
          (head_parse_nlines st s).head
            = { status_code := st.head.status_code, nlines := countValue sg ds })
      ∧ ((head_parse_nlines st s).sys.err ≠ st.sys.err →
          (head_parse_nlines st s).head.status_code = EXIT_FAILURE)
      ∧ (s ≠ [] → (∀ c ∈ s, isdigit c = true) →
          ((head_parse_nlines st s).sys.err = st.sys.err ↔ digitsValue s ≤ 2 ^ 64 - 1)
            ∧ ((head_parse_nlines st s).sys.err = st.sys.err →
                (head_parse_nlines st s).head
                  = { status_code := st.head.status_code, nlines := digitsValue s })) := by
  have key : ∀ ws sg ds, s = ws ++ sg ++ ds → IsCount ws sg ds →
      (head_parse_nlines st s).head
        = { status_code := st.head.status_code, nlines := countValue sg ds } := by
    intro ws sg ds e hc
    obtain ⟨h1, h2⟩ := accepted_of_count ws sg ds hc
    rw [e, head_parse_nlines_accepted st _ h1, h2]
  refine ⟨?_, key, ?_, ?_⟩
  · rw [head_parse_nlines_err]
    constructor
    · exact count_of_accepted s
    · rintro ⟨ws, sg, ds, e, hc⟩
      rw [e]
      exact (accepted_of_count ws sg ds hc).1
  · intro hne
    have hr : nlinesRejected s := by
      by_contra h
      exact hne ((head_parse_nlines_err st s).mpr h)
    obtain ⟨b, fmt, e⟩ := head_parse_nlines_rejected st s hr
    rw [e]
    rfl
  · intro hne hds
    have e := strtoumax_parts [] [] s (by simp) (Or.inl rfl) hne hds
    simp only [List.append_nil, List.nil_append] at e
    have hiff : (head_parse_nlines st s).sys.err = st.sys.err ↔ digitsValue s ≤ 2 ^ 64 - 1 := by
      rw [head_parse_nlines_err]
      unfold nlinesRejected
      have hU : UINTMAX_MAX = 2 ^ 64 - 1 := rfl
      by_cases hbig : UINTMAX_MAX < digitsValue s
      · rw [if_pos hbig] at e
        rw [e]
        have : ¬ digitsValue s ≤ 2 ^ 64 - 1 := by rw [← hU]; exact Nat.not_le.mpr hbig
        simp only [this, iff_false, not_not]
        exact Or.inr (Or.inr (by simp))
      · rw [if_neg hbig] at e
        rw [e]
        have : digitsValue s ≤ 2 ^ 64 - 1 := by rw [← hU]; exact Nat.le_of_not_lt hbig
        simp only [this, iff_true]
        rintro (h | h | ⟨_, h⟩)
        · exact hne h
        · exact h rfl
        · cases h
    refine ⟨hiff, fun hacc => ?_⟩
    have hc : IsCount [] [] s := ⟨by simp, Or.inl rfl, hne, hds, hiff.mp hacc⟩
    have := key [] [] s (by simp) hc
    simpa [countValue] using this

/-- C6 witness: "18446744073709551615" is accepted with that value, and "",
"9f" and "18446744073709551616" are rejected. -/
theorem C6_witness :
    (head_parse_nlines (testState 10) (bytes "18446744073709551615")).head
        = { status_code := 0, nlines := 18446744073709551615 }
      ∧ (head_parse_nlines (testState 10) (bytes "")).head.status_code = EXIT_FAILURE
      ∧ (head_parse_nlines (testState 10) (bytes "9f")).head.status_code = EXIT_FAILURE
      ∧ (head_parse_nlines (testState 10)
          (bytes "18446744073709551616")).head.status_code = EXIT_FAILURE :=
  ⟨(C6_parse_nlines_accepts (testState 10) (bytes "18446744073709551615")).2.1 [] []
      (bytes "18446744073709551615") (by decide)
      ⟨by decide, by decide, by decide, by decide, by decide⟩,
   (C6_parse_nlines_accepts (testState 10) (bytes "")).2.2.1 (by decide),
   (C6_parse_nlines_accepts (testState 10) (bytes "9f")).2.2.1 (by decide),
   (C6_parse_nlines_accepts (testState 10) (bytes "18446744073709551616")).2.2.1 (by decide)⟩

/-- C6 counterexample: "+5", " 7" and "-1" contain a byte that is not a decimal
digit, yet `head_parse_nlines` accepts them, with `nlines` 5, 7 and
`2 ^ 64 - 1`. -/
theorem C6_counterexample :
    ¬ (∀ c ∈ bytes "+5", isdigit c = true)
      ∧ (head_parse_nlines (testState 10) (bytes "+5")).head
          = { status_code := 0, nlines := 5 }
      ∧ (head_parse_nlines (testState 10) (bytes "+5")).sys.err = []
      ∧ ¬ (∀ c ∈ bytes " 7", isdigit c = true)
      ∧ (head_parse_nlines (testState 10) (bytes " 7")).head
          = { status_code := 0, nlines := 7 }
      ∧ ¬ (∀ c ∈ bytes "-1", isdigit c = true)
      ∧ (head_parse_nlines (testState 10) (bytes "-1")).head
          = { status_code := 0, nlines := 2 ^ 64 - 1 } := by
  decide

/-! ## C7, C8: the exit status -/

theorem head_parse_nlines_status (s : State) (str : List Byte)
    (h : s.head.status_code = EXIT_FAILURE) :
    (head_parse_nlines s str).head.status_code = EXIT_FAILURE := by
  by_cases hr : nlinesRejected str
  · obtain ⟨b, fmt, e⟩ := head_parse_nlines_rejected s str hr
    rw [e]; rfl
  · rw [head_parse_nlines_accepted s str hr]; exact h

theorem head_main_getopt_bad (s : State) (o : Opt) (h : badOpt o = true) :
    (head_main_getopt s o).head.status_code = EXIT_FAILURE
      ∧ ∃ d, (head_main_getopt s o).sys.err = s.sys.err ++ [d] := by
  cases o with
  | unknown => exact ⟨rfl, ⟨Diag.getopt, rfl⟩⟩
  | n a =>
    have hr : nlinesRejected a := by simpa [badOpt] using h
    obtain ⟨b, fmt, e⟩ := head_parse_nlines_rejected
      { s with sys := getopt_report s.sys (Opt.n a) } a hr
    unfold head_main_getopt
    simp only
    rw [e]
    exact ⟨rfl, ⟨_, rfl⟩⟩

theorem head_main_getopt_good (s : State) (o : Opt) (h : badOpt o = false) :
    (head_main_getopt s o).head.status_code = s.head.status_code
      ∧ (head_main_getopt s o).sys.err = s.sys.err := by
  cases o with
  | unknown => simp [badOpt] at h
  | n a =>
    have hr : ¬ nlinesRejected a := by simpa [badOpt] using h
    unfold head_main_getopt
    simp only
    rw [head_parse_nlines_accepted _ a hr]
    exact ⟨rfl, rfl⟩

theorem head_main_getopt_status (s : State) (o : Opt)
    (h : s.head.status_code = EXIT_FAILURE) :
    (head_main_getopt s o).head.status_code = EXIT_FAILURE := by
  cases hb : badOpt o with
  | true => exact (head_main_getopt_bad s o hb).1
  | false => rw [(head_main_getopt_good s o hb).1]; exact h

theorem foldl_getopt_status (os : List Opt) (s : State) :
    ∃ ds, (os.foldl head_main_getopt s).sys.err = s.sys.err ++ ds ∧
      (((∀ o ∈ os, badOpt o = false)
          ∧ (os.foldl head_main_getopt s).head.status_code = s.head.status_code ∧ ds = [])
        ∨ ((∃ o ∈ os, badOpt o = true)
          ∧ (os.foldl head_main_getopt s).head.status_code = EXIT_FAILURE ∧ ds ≠ [])) := by
  induction os generalizing s with
  | nil => exact ⟨[], by simp, Or.inl ⟨by simp, rfl, rfl⟩⟩
  | cons o os ih =>
    obtain ⟨ds, he, h⟩ := ih (head_main_getopt s o)
    rw [List.foldl_cons]
    cases hb : badOpt o with
    | true =>
      obtain ⟨hs, d, hd⟩ := head_main_getopt_bad s o hb
      refine ⟨d :: ds, by rw [he, hd]; simp, Or.inr ⟨⟨o, by simp, hb⟩, ?_, by simp⟩⟩
      rcases h with ⟨_, h, _⟩ | ⟨_, h, _⟩
      · rw [h]; exact hs
      · exact h
    | false =>
      obtain ⟨hs, hd⟩ := head_main_getopt_good s o hb
      refine ⟨ds, by rw [he, hd], ?_⟩
      rcases h with ⟨h1, h2, h3⟩ | ⟨⟨o2, ho2, hb2⟩, h2, h3⟩
      · left
        refine ⟨?_, by rw [h2, hs], h3⟩
        intro o2 ho2
        rcases List.mem_cons.mp ho2 with e | e
        · rw [e]; exact hb
        · exact h1 o2 e
      · right
        exact ⟨⟨o2, by simp [ho2], hb2⟩, h2, h3⟩

theorem head_main_parse_status (argv : List (List Byte)) (w : World) :
    ∃ ds, (head_main_parse argv w).sys.err = w.err ++ ds ∧
      (((∀ o ∈ (getopt_all (argv.drop 1)).1, badOpt o = false)
          ∧ (head_main_parse argv w).head.status_code = 0 ∧ ds = [])
        ∨ ((∃ o ∈ (getopt_all (argv.drop 1)).1, badOpt o = true)
          ∧ (head_main_parse argv w).head.status_code = EXIT_FAILURE ∧ ds ≠ [])) :=
  foldl_getopt_status _ _

theorem head_main_logged (argv : List (List Byte)) (w : World)
    (h : (head_main_parse argv w).head.status_code = 0) :
    Logged (fun _ => True) (head_main_parse argv w) (head_main argv w) := by
  unfold head_main
  simp only [h, if_true]
  split
  · exact logged_mono (fun _ _ => trivial) (head_fp_logged _ _)
  · exact head_main_loop_logged _ _ _ _

theorem head_main_parse_failed (argv : List (List Byte)) (w : World)
    (h : (head_main_parse argv w).head.status_code ≠ 0) :
    head_main argv w = head_main_parse argv w := by
  unfold head_main
  simp only [h, if_false]

/-- C7: for every argument vector and every behaviour of the substrate,
`head_main` returns `EXIT_FAILURE` if and only if a failure occurred during
the run: `getopt` returned `'?'`, an `-n` value was rejected, or a library
call of the run (`putchar`, `printf`, `fopen`, `getline`, `fwrite`, `ferror`,
`fclose`) reported failure; it returns 0 otherwise. The status is failure
exactly when a diagnostic was written. None of the program's functions turns a
failure status back into success. -/
theorem C7_status_iff_failure (argv : List (List Byte)) (w : World) :
    ((head_main argv w).head.status_code = EXIT_FAILURE ↔
        ((∃ o ∈ (getopt_all (argv.drop 1)).1, badOpt o = true)
          ∨ ∃ e ∈ newEvents w (head_main argv w), e.failed = true))
      ∧ ((head_main argv w).head.status_code ≠ EXIT_FAILURE →
          (head_main argv w).head.status_code = 0)
      ∧ ((head_main argv w).head.status_code = EXIT_FAILURE ↔
          ∃ ds, ds ≠ [] ∧ (head_main argv w).sys.err = w.err ++ ds)
      ∧ (∀ s : State, s.head.status_code = EXIT_FAILURE →
          (∀ b fmt arg, (head_warn s b fmt arg).head.status_code = EXIT_FAILURE)
          ∧ (∀ fp, (head_fp s fp).head.status_code = EXIT_FAILURE)
          ∧ (∀ p, (head_path s p).head.status_code = EXIT_FAILURE)
          ∧ (∀ str, (head_parse_nlines s str).head.status_code = EXIT_FAILURE)
          ∧ (∀ o, (head_main_getopt s o).head.status_code = EXIT_FAILURE)
          ∧ (∀ argc i p, (head_main_banner argc i s p).head.status_code = EXIT_FAILURE)
          ∧ (∀ argc i ps, (head_main_loop argc i ps s).head.status_code = EXIT_FAILURE)) := by
  have hmono : ∀ s : State, s.head.status_code = EXIT_FAILURE →
      (∀ b fmt arg, (head_warn s b fmt arg).head.status_code = EXIT_FAILURE)
      ∧ (∀ fp, (head_fp s fp).head.status_code = EXIT_FAILURE)
      ∧ (∀ p, (head_path s p).head.status_code = EXIT_FAILURE)
      ∧ (∀ str, (head_parse_nlines s str).head.status_code = EXIT_FAILURE)
      ∧ (∀ o, (head_main_getopt s o).head.status_code = EXIT_FAILURE)
      ∧ (∀ argc i p, (head_main_banner argc i s p).head.status_code = EXIT_FAILURE)
      ∧ (∀ argc i ps, (head_main_loop argc i ps s).head.status_code = EXIT_FAILURE) :=
    fun s hs => ⟨fun _ _ _ => rfl,
      fun fp => logged_status (head_fp_logged s fp) hs,
      fun p => logged_status (head_path_logged s p) hs,
      fun str => head_parse_nlines_status s str hs,
      fun o => head_main_getopt_status s o hs,
      fun argc i p => logged_status (head_main_banner_logged argc i s p) hs,
      fun argc i ps => logged_status (head_main_loop_logged argc ps i s) hs⟩
  have h01 : (0 : Int) ≠ EXIT_FAILURE := by decide
  obtain ⟨_, _, _, _, htrace, _⟩ := head_main_parse_sameSys argv w
  obtain ⟨ds, herr, hp⟩ := head_main_parse_status argv w
  rcases hp with ⟨hgood, hs0, hds⟩ | ⟨hbad, hsf, hds⟩
  · obtain ⟨evs, ds2, ht, he, _, hl⟩ := head_main_logged argv w hs0
    rw [htrace] at ht
    rw [herr, hds, List.append_nil] at he
    have hnobad : ¬ ∃ o ∈ (getopt_all (argv.drop 1)).1, badOpt o = true := by
      rintro ⟨o, ho, hb⟩
      rw [hgood o ho] at hb
      cases hb
    rw [newEvents_append w _ evs ht]
    rcases hl with ⟨hst, hpass, hd2⟩ | ⟨hst, hfail, hd2⟩
    · rw [hs0] at hst
      have hnofail : ¬ ∃ e ∈ evs, e.failed = true := by
        rintro ⟨e, he1, hf⟩
        rw [hpass e he1] at hf
        cases hf
      refine ⟨?_, fun _ => hst, ?_, hmono⟩
      · rw [hst]
        exact ⟨fun h => absurd h h01, fun h => h.elim (fun h => absurd h hnobad)
          (fun h => absurd h hnofail)⟩
      · rw [hst]
        refine ⟨fun h => absurd h h01, ?_⟩
        rintro ⟨d3, hne, he3⟩
        rw [he, hd2, List.append_nil] at he3
        exact absurd (List.self_eq_append_right.mp he3) hne
    · exact ⟨⟨fun _ => Or.inr hfail, fun _ => hst⟩, fun h => absurd hst h,
        ⟨fun _ => ⟨ds2, hd2, he⟩, fun _ => hst⟩, hmono⟩
  · have hne : (head_main_parse argv w).head.status_code ≠ 0 := by
      rw [hsf]; exact fun h => h01 h.symm
    rw [head_main_parse_failed argv w hne]
    exact ⟨⟨fun _ => Or.inl hbad, fun _ => hsf⟩, fun h => absurd hsf h,
      ⟨fun _ => ⟨ds, hds, herr⟩, fun _ => hsf⟩, hmono⟩

/-- C7 witness: a state whose status is failure keeps it through `head_path`
on a file that can be opened, and the run on the missing /noexist.txt returns
failure because its `fopen` failed. -/
theorem C7_witness :
    (head_path { testState 10 with head := { status_code := EXIT_FAILURE, nlines := 10 } }
        (bytes "test/files/1.txt")).head.status_code = EXIT_FAILURE
      ∧ (head_main (argvOf ["/noexist.txt"]) (testWorld [] quietEnv)).head.status_code
          = EXIT_FAILURE :=
  ⟨((C7_status_iff_failure [] (testWorld [] quietEnv)).2.2.2
      { testState 10 with head := { status_code := EXIT_FAILURE, nlines := 10 } } rfl).2.2.1
      (bytes "test/files/1.txt"),
   (C7_status_iff_failure (argvOf ["/noexist.txt"]) (testWorld [] quietEnv)).1.mpr
      (Or.inr (by decide))⟩

/-- C8: when argument parsing fails (`getopt` returns `'?'`, or an `-n` value
is rejected), whatever else is on the command line, `head_main` stops after
parsing: it makes no library call at all (no input is opened or read, standard
input is not read, nothing is written to standard output) and returns
`EXIT_FAILURE`. -/
theorem C8_parse_failure_no_processing (argv : List (List Byte)) (w : World)
    (hbad : ∃ o ∈ (getopt_all (argv.drop 1)).1, badOpt o = true) :
    head_main argv w = head_main_parse argv w
      ∧ (head_main argv w).sys.trace = w.trace
      ∧ (head_main argv w).sys.out = w.out
      ∧ (head_main argv w).sys.stdin = w.stdin
      ∧ (head_main argv w).head.status_code = EXIT_FAILURE := by
  obtain ⟨_, hstdin, hout, _, htrace, _⟩ := head_main_parse_sameSys argv w
  obtain ⟨ds, herr, hp⟩ := head_main_parse_status argv w
  have hsf : (head_main_parse argv w).head.status_code = EXIT_FAILURE := by
    rcases hp with ⟨hgood, _, _⟩ | ⟨_, hsf, _⟩
    · obtain ⟨o, ho, hb⟩ := hbad
      rw [hgood o ho] at hb
      cases hb
    · exact hsf
  have hne : (head_main_parse argv w).head.status_code ≠ 0 := by
    rw [hsf]; decide
  rw [head_main_parse_failed argv w hne]
  exact ⟨rfl, htrace, hout, hstdin, hsf⟩

/-- C8 witness: the option -z, and the value "9f" of -n, each followed by a
valid option and a file. -/
theorem C8_witness :
    (head_main (argvOf ["-z", "-n", "5", "test/files/10.txt"])
        (testWorld file5 quietEnv)).sys.trace = []
      ∧ (head_main (argvOf ["-z", "-n", "5", "test/files/10.txt"])
        (testWorld file5 quietEnv)).head.status_code = EXIT_FAILURE
      ∧ (head_main (argvOf ["-n", "9f", "-n", "5", "test/files/10.txt"])
        (testWorld file5 quietEnv)).sys.out = []
      ∧ (head_main (argvOf ["-n", "9f", "-n", "5", "test/files/10.txt"])
        (testWorld file5 quietEnv)).head.status_code = EXIT_FAILURE :=
  have h1 := C8_parse_failure_no_processing (argvOf ["-z", "-n", "5", "test/files/10.txt"])
    (testWorld file5 quietEnv) (by decide)
  have h2 := C8_parse_failure_no_processing
    (argvOf ["-n", "9f", "-n", "5", "test/files/10.txt"]) (testWorld file5 quietEnv) (by decide)
  ⟨h1.2.1, h1.2.2.2.2, h2.2.2.1, h2.2.2.2.2⟩

/-! ## C9, C10: no operand, one operand, limit zero -/

theorem head_main_quiet (argv : List (List Byte)) (w : World) (hw : NoFault w)
    (hparse : (head_main_parse argv w).head.status_code = 0)
    (hopen : ∀ p ∈ head_main_operands argv, (w.files p).isSome = true) :
    head_main argv w
      = { head := (head_main_parse argv w).head,
          sys := { (head_main_parse argv w).sys with
            out := w.out ++ runOut (head_main_parse argv w).head.nlines w
                              (head_main_operands argv),
            trace := w.trace ++ runCalls (head_main_parse argv w).head.nlines w
                              (head_main_operands argv) } } := by
  obtain ⟨hfiles, hstdin, hout, herr, htrace, henv⟩ := head_main_parse_sameSys argv w
  have hq : Quiet (head_main_parse argv w).sys := by
    intro t c; rw [henv]; exact hw.1 t c
  have he : (head_main_parse argv w).sys.out_error = false := herr.trans hw.2.2
  have hopen2 : ∀ p ∈ head_main_operands argv,
      ((head_main_parse argv w).sys.files p).isSome = true := by
    intro p hp; rw [hfiles]; exact hopen p hp
  unfold head_main
  simp only [hparse, if_true]
  generalize head_main_operands argv = ops at hopen hopen2 ⊢
  match ops, hopen, hopen2 with
  | [], _, _ =>
    simp only [List.length_nil, Nat.lt_one_iff, if_true]
    rw [head_fp_quiet_calls _ _ hq he (by rw [hstdin]; exact hw.2.1)]
    simp [runOut, runCalls, hstdin, hout, htrace]
  | [p], hopen, hopen2 =>
    obtain ⟨c, hc⟩ := Option.isSome_iff_exists.mp (hopen2 p (by simp))
    have hc2 : w.files p = some c := by rw [← hfiles]; exact hc
    have hb : head_main_banner 1 0 (head_main_parse argv w) p = head_main_parse argv w := by
      simp [head_main_banner]
    simp only [List.length_singleton, Nat.lt_irrefl, if_false, head_main_loop, hparse, if_true,
      hb]
    rw [head_path_quiet _ p c hq he hc]
    simp [runOut, runCalls, hc2, hout, htrace]
  | p :: q :: ps, hopen, hopen2 =>
    have hN : 1 < (p :: q :: ps).length := by simp
    rw [if_neg (by simp), head_main_loop_quiet _ hN _ 0 _ hq he hparse hopen2]
    simp [runOut, runCalls, hfiles, hout, htrace]

theorem foldl_getopt_nlines (os : List Opt) (s : State) (h : ∀ a, Opt.n a ∉ os) :
    (os.foldl head_main_getopt s).head.nlines = s.head.nlines := by
  induction os generalizing s with
  | nil => rfl
  | cons o os ih =>
    rw [List.foldl_cons, ih _ (fun a ha => h a (by simp [ha]))]
    cases o with
    | unknown => rfl
    | n a => exact absurd (by simp) (h a)

/-- C9: when nothing fails, a run without operands processes standard input
once and writes exactly its first `nlines` lines, without banner; a run with
one operand writes exactly the first `nlines` lines of that file, without
banner or separator; and when `getopt` returns no `-n` option the limit is
10. -/
theorem C9_no_banner_below_two_inputs (argv : List (List Byte)) (w : World) (hw : NoFault w)
    (hparse : (head_main_parse argv w).head.status_code = 0) :
    (head_main_operands argv = [] →
        head_main argv w = head_fp (head_main_parse argv w) w.stdin
          ∧ (head_main argv w).sys.out
              = w.out ++ firstLines (head_main_parse argv w).head.nlines w.stdin.data
          ∧ newEvents w (head_main argv w)
              = fpCalls (head_main_parse argv w).head.nlines w.stdin.data
          ∧ (head_main argv w).head.status_code = EXIT_SUCCESS)
      ∧ (∀ p c, head_main_operands argv = [p] → w.files p = some c →
          (head_main argv w).sys.out
              = w.out ++ firstLines (head_main_parse argv w).head.nlines c
          ∧ newEvents w (head_main argv w)
              = pathCalls (head_main_parse argv w).head.nlines p c
          ∧ (head_main argv w).head.status_code = EXIT_SUCCESS)
      ∧ ((∀ a, Opt.n a ∉ (getopt_all (argv.drop 1)).1) →
          (head_main_parse argv w).head.nlines = 10) := by
  refine ⟨?_, ?_, ?_⟩
  · intro hops
    have hm := head_main_quiet argv w hw hparse (by rw [hops]; simp)
    rw [hops] at hm
    refine ⟨?_, by rw [hm]; rfl, by rw [newEvents_append w _ _ (by rw [hm])]; rfl,
      by rw [hm]; exact hparse⟩
    unfold head_main
    simp only [hparse, if_true, hops, List.length_nil, Nat.lt_one_iff]
    rw [(head_main_parse_sameSys argv w).2.1]
  · intro p c hops hc
    have hm := head_main_quiet argv w hw hparse (by rw [hops]; simp [hc])
    rw [hops] at hm
    refine ⟨by rw [hm]; simp [runOut, hc], ?_, by rw [hm]; exact hparse⟩
    rw [newEvents_append w _ _ (by rw [hm])]
    simp [runCalls, hc]
  · intro h
    exact foldl_getopt_nlines _ _ h

/-- C9 witness: the single file 10.txt, and five lines on standard input with
no file arguments, both with the default limit. -/
theorem C9_witness :
    (head_main (argvOf ["test/files/10.txt"]) (testWorld [] quietEnv)).sys.out = file10
      ∧ (head_main (argvOf []) (testWorld file5 quietEnv)).sys.out = file5
      ∧ (head_main_parse (argvOf []) (testWorld file5 quietEnv)).head.nlines = 10 := by
  have h1 := ((C9_no_banner_below_two_inputs (argvOf ["test/files/10.txt"])
    (testWorld [] quietEnv) ⟨fun _ _ => rfl, rfl, rfl⟩ (by decide)).2.1
      (bytes "test/files/10.txt") file10 (by decide) (by decide)).1
  have h2 := ((C9_no_banner_below_two_inputs (argvOf [])
    (testWorld file5 quietEnv) ⟨fun _ _ => rfl, rfl, rfl⟩ (by decide)).1 (by decide)).2.1
  have h3 := (C9_no_banner_below_two_inputs (argvOf [])
    (testWorld file5 quietEnv) ⟨fun _ _ => rfl, rfl, rfl⟩ (by decide)).2.2
      (by
        intro a h
        have e : (getopt_all (List.drop 1 (argvOf []))).1 = [] := by decide
        rw [e] at h
        cases h)
  rw [h1, h2]
  exact ⟨by decide, by decide, h3⟩

theorem multiCalls_zero_calls (files : List Byte → Option (List Byte))
    (ps : List (List Byte)) (i : Nat) :
    ∀ e ∈ multiCalls 0 files i ps, e.call ≠ Call.getline ∧ ∀ n, e.call ≠ Call.fwrite n := by
  induction ps generalizing i with
  | nil => intro e he; cases he
  | cons p ps ih =>
    have hsec : ∀ e ∈ sectionCalls 0 files i p,
        e.call ≠ Call.getline ∧ ∀ n, e.call ≠ Call.fwrite n := by
      unfold sectionCalls
      rw [loopCalls_zero]
      by_cases hi : i > 0 <;> simp [hi, passed]
    intro e he
    rw [multiCalls] at he
    rcases List.mem_append.mp he with h | h
    · exact hsec e h
    · exact ih _ e h

theorem runCalls_zero_calls (w : World) (ps : List (List Byte)) :
    ∀ e ∈ runCalls 0 w ps, e.call ≠ Call.getline ∧ ∀ n, e.call ≠ Call.fwrite n := by
  match ps with
  | [] => simp [runCalls, fpCalls, loopCalls_zero, passed]
  | [p] => simp [runCalls, pathCalls, fpCalls, loopCalls_zero, passed]
  | p :: q :: ps => exact multiCalls_zero_calls _ _ _

theorem runOut_zero (w : World) (ps : List (List Byte)) :
    runOut 0 w ps
      = if 2 ≤ ps.length then
          List.intercalate [NL] (ps.map (fun p => bytes "==> " ++ p ++ bytes " <==\n"))
        else [] := by
  match ps with
  | [] => simp [runOut, firstLines_zero]
  | [p] => simp [runOut, firstLines_zero]
  | p :: q :: ps =>
    rw [runOut, multiOut_zero, if_pos (by simp)]
    simp only [firstLines_zero, List.append_nil, banner_eq]

/-- C10: with line limit 0, `head_fp` makes no `getline` and no `fwrite` call
on any input under any environment (its only calls are the `ferror` checks),
leaves standard output as it was, and, when no error indicator is set, leaves
the status as it was. A run with limit 0 in which nothing else fails makes no
`getline` or `fwrite` call, writes no byte of any input (only the banners and
separators when there are two or more inputs) and returns success. -/
theorem C10_limit_zero (s : State) (fp : FILE) (h0 : s.head.nlines = 0) :
    (head_fp s fp).sys.out = s.sys.out
      ∧ (∀ e ∈ newEvents s.sys (head_fp s fp), ∃ b, e.call = Call.ferror b)
      ∧ (Quiet s.sys → fp.error = false → s.sys.out_error = false →
          (head_fp s fp).head.status_code = s.head.status_code)
      ∧ (∀ (argv : List (List Byte)) (w : World), NoFault w →
          (head_main_parse argv w).head = { status_code := 0, nlines := 0 } →
          (∀ p ∈ head_main_operands argv, (w.files p).isSome = true) →
          (head_main argv w).head.status_code = EXIT_SUCCESS
            ∧ (∀ e ∈ newEvents w (head_main argv w),
                e.call ≠ Call.getline ∧ ∀ n, e.call ≠ Call.fwrite n)
            ∧ (head_main argv w).sys.out
                = w.out ++ (if 2 ≤ (head_main_operands argv).length then
                    List.intercalate [NL] ((head_main_operands argv).map
                      (fun p => bytes "==> " ++ p ++ bytes " <==\n"))
                  else [])) := by
  refine ⟨?_, ?_, ?_, ?_⟩
  · unfold head_fp
    simp only [h0, head_fp_loop]
    split
    · rfl
    · split <;> rfl
  · have ht : ∃ evs, (head_fp s fp).sys.trace = s.sys.trace ++ evs
        ∧ ∀ e ∈ evs, ∃ b, e.call = Call.ferror b := by
      unfold head_fp
      simp only [h0, head_fp_loop]
      split
      · exact ⟨[Event.mk (Call.ferror false) (ferror s.sys false fp.error).2],
          (ferror_trace s.sys false fp.error).1, by simp⟩
      · have e2 := (ferror_trace (ferror s.sys false fp.error).1 true
          (ferror s.sys false fp.error).1.out_error).1
        rw [(ferror_trace s.sys false fp.error).1, List.append_assoc] at e2
        split
        · exact ⟨_, e2, by simp⟩
        · exact ⟨_, e2, by simp⟩
    obtain ⟨evs, hte, hq⟩ := ht
    rw [newEvents_append s.sys _ evs hte]
    exact hq
  · intro hq hf he
    rw [head_fp_quiet s fp hq he hf]
  · intro argv w hw hhead hopen
    have hparse : (head_main_parse argv w).head.status_code = 0 := by rw [hhead]
    have hn : (head_main_parse argv w).head.nlines = 0 := by rw [hhead]
    have hm := head_main_quiet argv w hw hparse hopen
    rw [hn] at hm
    refine ⟨by rw [hm]; exact hparse, ?_, by rw [hm]; simp only [runOut_zero]⟩
    rw [newEvents_append w _ _ (by rw [hm])]
    exact runCalls_zero_calls w _

/-- C10 witness: -n 0 on the 10-line file gives empty output and exit status
0. -/
theorem C10_witness :
    (head_main (argvOf ["-n", "0", "test/files/10.txt"])
        (testWorld [] quietEnv)).head.status_code = 0
      ∧ (head_main (argvOf ["-n", "0", "test/files/10.txt"])
        (testWorld [] quietEnv)).sys.out = [] := by
  have h := (C10_limit_zero (testState 0) { data := file10, error := false } rfl).2.2.2
    (argvOf ["-n", "0", "test/files/10.txt"]) (testWorld [] quietEnv)
    ⟨fun _ _ => rfl, rfl, rfl⟩ (by decide) (by decide)
  refine ⟨h.1, ?_⟩
  rw [h.2.2]
  decide

/-! ## C11: the order of reads and writes in `head_fp` -/

theorem fwrite_out (w : World) (l : List Byte) :
    (fwrite w l).1.out = w.out ++ l.take (fwrite w l).2 := by
  simp [fwrite, record]

theorem loopEnd_succ (n : Nat) (b : Byte) (bs : List Byte) (k : Nat) (tail : List Event)
    (extra : List Byte) (failure : Bool)
    (h : LoopEnd n (readLine (b :: bs)).2 k tail extra failure) :
    LoopEnd (n + 1) (b :: bs) (k + 1) tail extra failure := by
  rcases h with ⟨h1, h2, h3, h4⟩ | ⟨f, h1, h2, h3, h4⟩ | ⟨l, m, h0, hm, h1, h2, h3, h4⟩
  · exact Or.inl ⟨h1, by omega, h3, h4⟩
  · exact Or.inr (Or.inl ⟨f, h1, by omega, h3, h4⟩)
  · refine Or.inr (Or.inr ⟨l, m, ?_, hm, h1, by omega, h3, h4⟩)
    rw [lines_cons, List.getElem?_cons_succ]
    exact h0

theorem head_fp_loop_shape (n : Nat) : ∀ (s : State) (fp : FILE),
    ∃ k tail extra failure,
      (head_fp_loop n s fp).1.sys.trace
          = s.sys.trace ++ (lineCalls ((lines fp.data).take k) ++ tail)
        ∧ (head_fp_loop n s fp).1.sys.out = s.sys.out ++ (firstLines k fp.data ++ extra)
        ∧ k ≤ (lines fp.data).length
        ∧ LoopEnd n fp.data k tail extra failure
        ∧ (failure = true → (head_fp_loop n s fp).1.head.status_code = EXIT_FAILURE)
        ∧ (failure = false → (head_fp_loop n s fp).1.head.status_code = s.head.status_code) := by
  induction n with
  | zero =>
    intro s fp
    exact ⟨0, [], [], false, by simp [head_fp_loop, lineCalls],
      by simp [head_fp_loop, firstLines_zero], Nat.zero_le _, Or.inl ⟨rfl, rfl, rfl, rfl⟩,
      by simp, fun _ => rfl⟩
  | succ n ih =>
    intro s fp
    by_cases hg : (s.sys.env s.sys.trace Call.getline).fail = true
    · refine ⟨0, [{ call := Call.getline, failed := true }], [], true, ?_, ?_, Nat.zero_le _,
        Or.inr (Or.inl ⟨true, rfl, Nat.succ_pos n, rfl, rfl⟩), fun _ => ?_, by simp⟩
      · simp [head_fp_loop, getline, hg, head_warn, record, lineCalls]
      · simp [head_fp_loop, getline, hg, head_warn, record, firstLines_zero]
      · simp [head_fp_loop, getline, hg, head_warn]
    · obtain ⟨data, e⟩ := fp
      cases data with
      | nil =>
        refine ⟨0, [{ call := Call.getline, failed := false }], [], false, ?_, ?_, Nat.zero_le _,
          Or.inr (Or.inl ⟨false, rfl, Nat.succ_pos n, rfl, rfl⟩), by simp, fun _ => ?_⟩
        · simp [head_fp_loop, getline, hg, record, lineCalls]
        · simp [head_fp_loop, getline, hg, record, firstLines_zero]
        · simp [head_fp_loop, getline, hg]
      | cons b bs =>
        have hle := fwrite_le (record s.sys Call.getline false) (readLine (b :: bs)).1
        have htr := (fwrite_trace (record s.sys Call.getline false) (readLine (b :: bs)).1).1
        have hout := fwrite_out (record s.sys Call.getline false) (readLine (b :: bs)).1
        by_cases hw : (fwrite (record s.sys Call.getline false) (readLine (b :: bs)).1).2
            = (readLine (b :: bs)).1.length
        · have hstep : head_fp_loop (n + 1) s { data := b :: bs, error := e }
              = head_fp_loop n
                  { s with sys := (fwrite (record s.sys Call.getline false)
                      (readLine (b :: bs)).1).1 }
                  { data := (readLine (b :: bs)).2, error := e } := by
            simp [head_fp_loop, getline, hg, hw]
          obtain ⟨k, tail, extra, failure, h1, h2, h3, h4, h5, h6⟩ :=
            ih { s with sys := (fwrite (record s.sys Call.getline false)
                      (readLine (b :: bs)).1).1 }
              { data := (readLine (b :: bs)).2, error := e }
          refine ⟨k + 1, tail, extra, failure, ?_, ?_, ?_, loopEnd_succ n b bs k tail extra
            failure h4, ?_, ?_⟩
          · have htr2 : (fwrite (record s.sys Call.getline false) (readLine (b :: bs)).1).1.trace
                = s.sys.trace ++ [{ call := Call.getline, failed := false },
                    { call := Call.fwrite (readLine (b :: bs)).1.length, failed := false }] := by
              rw [htr, hw]; simp [record]
            rw [hstep, h1]
            simp [htr2, lines_cons, lineCalls, passed]
          · have hout2 : (fwrite (record s.sys Call.getline false) (readLine (b :: bs)).1).1.out
                = s.sys.out ++ (readLine (b :: bs)).1 := by
              rw [hout, hw]; simp [record]
            rw [hstep, h2]
            simp [hout2, firstLines_succ]
          · rw [lines_cons, List.length_cons]
            exact Nat.succ_le_succ h3
          · intro hf; rw [hstep]; exact h5 hf
          · intro hf; rw [hstep]; exact h6 hf
        · have hlt : (fwrite (record s.sys Call.getline false) (readLine (b :: bs)).1).2
              < (readLine (b :: bs)).1.length := Nat.lt_of_le_of_ne hle hw
          have hstep : head_fp_loop (n + 1) s { data := b :: bs, error := e }
              = (head_warn { s with sys := (fwrite (record s.sys Call.getline false)
                      (readLine (b :: bs)).1).1 } true "fwrite: %s" [],
                  { data := (readLine (b :: bs)).2, error := e }) := by
            simp [head_fp_loop, getline, hg, hw]
          refine ⟨0, [passed Call.getline,
              { call := Call.fwrite (readLine (b :: bs)).1.length, failed := true }],
            (readLine (b :: bs)).1.take
              (fwrite (record s.sys Call.getline false) (readLine (b :: bs)).1).2,
            true, ?_, ?_, Nat.zero_le _, Or.inr (Or.inr ⟨(readLine (b :: bs)).1, _, ?_, hlt,
              rfl, Nat.succ_pos n, rfl, rfl⟩), fun _ => ?_, by simp⟩
          · have htr2 : (fwrite (record s.sys Call.getline false) (readLine (b :: bs)).1).1.trace
                = s.sys.trace ++ [{ call := Call.getline, failed := false },
                    { call := Call.fwrite (readLine (b :: bs)).1.length, failed := true }] := by
              rw [htr, decide_eq_true hlt]; simp [record]
            rw [hstep]
            simp [head_warn, htr2, lineCalls, passed]
          · have hout2 : (fwrite (record s.sys Call.getline false) (readLine (b :: bs)).1).1.out
                = s.sys.out ++ (readLine (b :: bs)).1.take
                    (fwrite (record s.sys Call.getline false) (readLine (b :: bs)).1).2 := by
              rw [hout]; simp [record]
            rw [hstep]
            simp [head_warn, hout2, firstLines_zero]
          · rw [lines_cons]; simp
          · rw [hstep]; rfl

theorem head_fp_after_loop (s : State) (fp : FILE) :
    ∃ checks, (head_fp s fp).sys.trace
          = (head_fp_loop s.head.nlines s fp).1.sys.trace ++ checks
      ∧ (∀ e ∈ checks, ∃ b, e.call = Call.ferror b)
      ∧ (head_fp s fp).sys.out = (head_fp_loop s.head.nlines s fp).1.sys.out
      ∧ ((head_fp_loop s.head.nlines s fp).1.head.status_code = EXIT_FAILURE →
          (head_fp s fp).head.status_code = EXIT_FAILURE) := by
  have e1 := (ferror_trace (head_fp_loop s.head.nlines s fp).1.sys false
    (head_fp_loop s.head.nlines s fp).2.error).1
  have e2 := (ferror_trace (ferror (head_fp_loop s.head.nlines s fp).1.sys false
    (head_fp_loop s.head.nlines s fp).2.error).1 true
    (ferror (head_fp_loop s.head.nlines s fp).1.sys false
      (head_fp_loop s.head.nlines s fp).2.error).1.out_error).1
  rw [e1, List.append_assoc] at e2
  unfold head_fp
  simp only
  split
  · exact ⟨_, e1, by simp, rfl, fun _ => rfl⟩
  · split
    · exact ⟨_, e2, by simp, rfl, fun _ => rfl⟩
    · exact ⟨_, e2, by simp, rfl, fun h => h⟩

theorem readCalls_append (a b : List Event) : readCalls (a ++ b) = readCalls a + readCalls b := by
  simp [readCalls, List.filter_append]

theorem readCalls_lineCalls (ls : List (List Byte)) : readCalls (lineCalls ls) = ls.length := by
  induction ls with
  | nil => rfl
  | cons l ls ih =>
    have e : lineCalls (l :: ls)
        = [passed Call.getline, passed (Call.fwrite l.length)] ++ lineCalls ls := by
      simp [lineCalls]
    rw [e, readCalls_append, ih, List.length_cons, Nat.add_comm]
    rfl

theorem readCalls_checks (checks : List Event) (h : ∀ e ∈ checks, ∃ b, e.call = Call.ferror b) :
    readCalls checks = 0 := by
  unfold readCalls
  rw [List.length_eq_zero, List.filter_eq_nil_iff]
  intro e he
  obtain ⟨b, hb⟩ := h e he
  simp [hb]

theorem lineCalls_passed (ls : List (List Byte)) : ∀ e ∈ lineCalls ls, e.failed = false := by
  intro e he
  simp only [lineCalls, List.mem_flatMap, List.mem_cons, List.mem_singleton, List.not_mem_nil,
    or_false] at he
  obtain ⟨l, _, h | h⟩ := he <;> rw [h] <;> rfl

/-- C11: under every environment the library calls of `head_fp` are, in order:
for each of the first `k` lines of the input one `getline` directly followed
by one `fwrite` of that whole line, both succeeding; then the end of the loop
(`LoopEnd`); then only `ferror` checks. At most `nlines` calls of `getline` are
made. The loop ends with the limit reached, or with a `getline` that reads no
line, or with a line read whose single `fwrite` takes fewer bytes than the
line has (possibly none): then, and only then, does an `fwrite` fail, the
status is `EXIT_FAILURE`, standard output holds just the bytes taken, and no
`getline` or `fwrite` follows the failed one. -/
theorem C11_read_then_write (s : State) (fp : FILE) :
    ∃ k tail extra failure checks,
      newEvents s.sys (head_fp s fp) = lineCalls ((lines fp.data).take k) ++ tail ++ checks
        ∧ (∀ e ∈ checks, ∃ b, e.call = Call.ferror b)
        ∧ k ≤ (lines fp.data).length
        ∧ LoopEnd s.head.nlines fp.data k tail extra failure
        ∧ (head_fp s fp).sys.out = s.sys.out ++ (firstLines k fp.data ++ extra)
        ∧ (failure = true → (head_fp s fp).head.status_code = EXIT_FAILURE)
        ∧ readCalls (newEvents s.sys (head_fp s fp)) ≤ s.head.nlines
        ∧ ((∃ e ∈ newEvents s.sys (head_fp s fp), (∃ n, e.call = Call.fwrite n)
              ∧ e.failed = true) →
            (head_fp s fp).head.status_code = EXIT_FAILURE
              ∧ ∃ l m, (lines fp.data)[k]? = some l ∧ m < l.length ∧ extra = l.take m
                ∧ tail = [passed Call.getline,
                    { call := Call.fwrite l.length, failed := true }]) := by
  obtain ⟨k, tail, extra, failure, h1, h2, h3, h4, h5, _⟩ :=
    head_fp_loop_shape s.head.nlines s fp
  obtain ⟨checks, c1, c2, c3, c4⟩ := head_fp_after_loop s fp
  have hev : newEvents s.sys (head_fp s fp)
      = lineCalls ((lines fp.data).take k) ++ tail ++ checks :=
    newEvents_append s.sys _ _ (by rw [c1, h1, List.append_assoc, List.append_assoc])
  refine ⟨k, tail, extra, failure, checks, hev, c2, h3, h4, by rw [c3, h2],
    fun hf => c4 (h5 hf), ?_, ?_⟩
  · rw [hev, readCalls_append, readCalls_append, readCalls_lineCalls, readCalls_checks _ c2,
      List.length_take, Nat.min_eq_left h3]
    rcases h4 with ⟨ht, hk, _, _⟩ | ⟨f, ht, hk, _, _⟩ | ⟨l, m, _, _, ht, hk, _, _⟩
    · rw [ht, hk]; exact Nat.le_refl _
    · rw [ht]
      have : readCalls [{ call := Call.getline, failed := f }] = 1 := rfl
      omega
    · rw [ht]
      have : readCalls [passed Call.getline,
          { call := Call.fwrite l.length, failed := true }] = 1 := rfl
      omega
  · rintro ⟨e, he, ⟨n, hn⟩, hfail⟩
    rw [hev] at he
    rcases List.mem_append.mp he with he1 | he1
    · rcases List.mem_append.mp he1 with he2 | he2
      · rw [lineCalls_passed _ e he2] at hfail
        cases hfail
      · rcases h4 with ⟨ht, _, _, _⟩ | ⟨f, ht, _, _, _⟩ | ⟨l, m, hl, hm, ht, _, hx, hf⟩
        · rw [ht] at he2; cases he2
        · rw [ht, List.mem_singleton] at he2
          rw [he2] at hn
          cases hn
        · exact ⟨c4 (h5 hf), l, m, hl, hm, hx, ht⟩
    · obtain ⟨b, hb⟩ := c2 e he1
      rw [hb] at hn
      cases hn

/-- C11 witness: README.md with the first `fwrite` forced to return 0: one
read, one failed write, then only the `ferror` checks; nothing is written and
the status is failure. -/
theorem C11_witness :
    (∃ k tail extra failure checks,
      newEvents (testWorld [] (seamEnv (Call.fwrite 0) 0))
          (head_fp { head := { status_code := 0, nlines := 10 },
                     sys := testWorld [] (seamEnv (Call.fwrite 0) 0) }
            { data := readme, error := false })
        = lineCalls ((lines readme).take k) ++ tail ++ checks
        ∧ (∀ e ∈ checks, ∃ b, e.call = Call.ferror b)
        ∧ k ≤ (lines readme).length
        ∧ LoopEnd 10 readme k tail extra failure)
      ∧ (head_fp { head := { status_code := 0, nlines := 10 },
                   sys := testWorld [] (seamEnv (Call.fwrite 0) 0) }
          { data := readme, error := false }).head.status_code = EXIT_FAILURE
      ∧ (head_fp { head := { status_code := 0, nlines := 10 },
                   sys := testWorld [] (seamEnv (Call.fwrite 0) 0) }
          { data := readme, error := false }).sys.out = []
      ∧ (head_fp { head := { status_code := 0, nlines := 10 },
                   sys := testWorld [] (seamEnv (Call.fwrite 0) 0) }
          { data := readme, error := false }).sys.trace
          = [passed Call.getline, { call := Call.fwrite 7, failed := true },
              passed (Call.ferror false), passed (Call.ferror true)] := by
  obtain ⟨k, tail, extra, failure, checks, h1, h2, h3, h4, _⟩ :=
    C11_read_then_write { head := { status_code := 0, nlines := 10 },
                          sys := testWorld [] (seamEnv (Call.fwrite 0) 0) }
      { data := readme, error := false }
  exact ⟨⟨k, tail, extra, failure, checks, h1, h2, h3, h4⟩, by decide, by decide, by decide⟩

/-! ## C12: limits compared -/

theorem emitted_quiet (s : State) (fp : FILE) (n : Nat) (hq : Quiet s.sys)
    (he : s.sys.out_error = false) (hf : fp.error = false) :
    emitted (withLimit s n) fp = firstLines n fp.data := by
  unfold emitted
  rw [head_fp_quiet (withLimit s n) fp hq he hf]
  simp [withLimit]

theorem firstLines_le (m n : Nat) (c : List Byte) (h : m ≤ n) :
    firstLines m c <+: firstLines n c := by
  refine ⟨(((lines c).take n).drop m).flatten, ?_⟩
  have e : (lines c).take m = ((lines c).take n).take m := by
    rw [List.take_take, Nat.min_eq_left h]
  unfold firstLines
  rw [e, ← List.flatten_append, List.take_append_drop]

theorem firstLines_input (n : Nat) (c : List Byte) : firstLines n c <+: c := by
  refine ⟨afterLines n c, ?_⟩
  unfold firstLines afterLines
  rw [← List.flatten_append, List.take_append_drop, flatten_lines]

theorem firstLines_idem (n : Nat) (c : List Byte) :
    firstLines n (firstLines n c) = firstLines n c := by
  have e : firstLines n (firstLines n c) = ((lines (firstLines n c)).take n).flatten := rfl
  rw [e, lines_firstLines, List.take_take, Nat.min_self]
  rfl

/-- C12: absent I/O errors, for limits `m ≤ n` the bytes `head_fp` emits with
limit `m` are an initial segment of the bytes it emits with limit `n`, both
are initial segments of the input, and `head_fp` with limit `n` run on its own
output with limit `n` emits that output again, unchanged. -/
theorem C12_limits_nested (s : State) (fp : FILE) (m n : Nat) (hq : Quiet s.sys)
    (he : s.sys.out_error = false) (hf : fp.error = false) (hmn : m ≤ n) :
    emitted (withLimit s m) fp <+: emitted (withLimit s n) fp
      ∧ emitted (withLimit s m) fp <+: fp.data
      ∧ emitted (withLimit s n) fp <+: fp.data
      ∧ emitted (withLimit s n) { data := emitted (withLimit s n) fp, error := false }
          = emitted (withLimit s n) fp := by
  rw [emitted_quiet s fp m hq he hf, emitted_quiet s fp n hq he hf,
    emitted_quiet s { data := firstLines n fp.data, error := false } n hq he rfl]
  exact ⟨firstLines_le m n _ hmn, firstLines_input m _, firstLines_input n _,
    firstLines_idem n _⟩

/-- C12 witness: limits 5 and 100 on the 10-line file. -/
theorem C12_witness :
    emitted (withLimit (testState 10) 5) { data := file10, error := false }
        <+: emitted (withLimit (testState 10) 100) { data := file10, error := false }
      ∧ emitted (withLimit (testState 10) 100) { data := file10, error := false } <+: file10
      ∧ emitted (withLimit (testState 10) 5) { data := file10, error := false } = file5 :=
  have h := C12_limits_nested (testState 10) { data := file10, error := false } 5 100
    (fun _ _ => rfl) rfl rfl (by decide)
  ⟨h.1, h.2.2.1, by decide⟩

end Head
